import Mathlib

/-!
Verification development for the JLCPCB part-search engine of this repository
(`src/faebryk/library/jlcpcb/`): the SI unit codec (`float_to_si` / `si_to_float`),
the per-family predicate builders (tolerance / value / case-size queries), the
second-stage attribute filters, the price ranker (`sort_by_basic_price`) and the
part-number lookup (`get_part`).

Modelling conventions:
* Python floats are modelled as exact rationals.  Because Lean's kernel cannot
  reduce `Rat` arithmetic (its normalisation uses well-founded `Nat.gcd`), we use
  an executable fraction type `PyF` (numerator/positive denominator, no
  normalisation) with a denotation `PyF.toQ : PyF → ℚ`; all order/equality tests
  on `PyF` are cross-multiplication on `Int`, which the kernel evaluates.
* Python exceptions are modelled by `Except PyError`; an exception swallowed by a
  bare `except:` is modelled as an `Option` failure at the swallowing site.
* The sparse per-record `extra` JSON blob is modelled structurally: `none` for a
  blob that fails to parse or has no `"attributes"` object, `some attrs` for the
  attribute dictionary.
* The external `si_prefix` pip library (`si_format`/`si_parse`, used by
  `float_to_si`/`si_to_float`) is not part of the repository; it is embedded here
  from its published implementation: `split` truncates `log10` toward zero,
  normalises to an engineering exponent, formats the mantissa with
  `precision = 2` decimal digits, and `si_parse` maps a trailing prefix letter to
  a power of 1000.  Decimal rounding of the mantissa is modelled as
  round-to-nearest (the `%.2f` conversion).
-/

/-- A Python float value, modelled as an exact fraction with positive
denominator.  No normalisation is performed, so all operations are
kernel-computable. -/
structure PyF where
  num : ℤ
  den : ℤ
  dpos : 0 < den

/-- Build a `PyF` from numerator and positive denominator. -/
def pyf (n : ℤ) (d : ℤ) (h : 0 < d) : PyF := ⟨n, d, h⟩

namespace PyF

/-- Denotation of a `PyF` as a rational number. -/
def toQ (a : PyF) : ℚ := (a.num : ℚ) / (a.den : ℚ)

/-- Embedding of an integer. -/
def ofInt (n : ℤ) : PyF := ⟨n, 1, one_pos⟩

/-- Embedding of a natural number. -/
def ofNat (n : ℕ) : PyF := ⟨(n : ℤ), 1, one_pos⟩

protected def neg (a : PyF) : PyF := ⟨-a.num, a.den, a.dpos⟩

protected def add (a b : PyF) : PyF :=
  ⟨a.num * b.den + b.num * a.den, a.den * b.den, mul_pos a.dpos b.dpos⟩

protected def mul (a b : PyF) : PyF :=
  ⟨a.num * b.num, a.den * b.den, mul_pos a.dpos b.dpos⟩

/-- Multiplicative inverse; `inv 0 = 0` (Python would raise `ZeroDivisionError`,
but no call site in the embedded code divides by zero). -/
protected def inv (a : PyF) : PyF :=
  if h : 0 < a.num then ⟨a.den, a.num, h⟩
  else if h' : a.num < 0 then ⟨-a.den, -a.num, by omega⟩
  else ⟨0, 1, one_pos⟩

protected def div (a b : PyF) : PyF := a.mul b.inv

protected def sub (a b : PyF) : PyF := a.add b.neg

instance : Neg PyF := ⟨PyF.neg⟩
instance : Add PyF := ⟨PyF.add⟩
instance : Mul PyF := ⟨PyF.mul⟩
instance : Div PyF := ⟨PyF.div⟩
instance : Sub PyF := ⟨PyF.sub⟩

protected def le (a b : PyF) : Prop := a.num * b.den ≤ b.num * a.den

protected def lt (a b : PyF) : Prop := a.num * b.den < b.num * a.den

instance : LE PyF := ⟨PyF.le⟩
instance : LT PyF := ⟨PyF.lt⟩

instance (a b : PyF) : Decidable (a ≤ b) := Int.decLe _ _
instance (a b : PyF) : Decidable (a < b) := Int.decLt _ _

/-- Python `==` on floats: value equality of the fractions. -/
def beq (a b : PyF) : Bool := a.num * b.den == b.num * a.den

/-- Power of ten with integer exponent, as a `PyF`. -/
def pow10 (e : ℤ) : PyF :=
  if 0 ≤ e then ⟨10 ^ e.toNat, 1, one_pos⟩
  else ⟨1, 10 ^ (-e).toNat, by positivity⟩

end PyF

/-! ### Character and string utilities

Executable models of the Python string operations used by the codec and the
query builders (`str.rstrip`, `str.strip`, decimal rendering and parsing). -/

/-- The decimal digit character for `d < 10`. -/
def digitChar : ℕ → Char
  | 0 => '0' | 1 => '1' | 2 => '2' | 3 => '3' | 4 => '4'
  | 5 => '5' | 6 => '6' | 7 => '7' | 8 => '8' | _ => '9'

/-- Is `c` a decimal digit? -/
def isDigitB (c : Char) : Bool := 48 ≤ c.toNat && c.toNat ≤ 57

/-- Python `str.rstrip(bad)` on a character list. -/
def rstripAll (bad : List Char) (l : List Char) : List Char :=
  (l.reverse.dropWhile (fun c => bad.contains c)).reverse

/-- Python `str.lstrip(bad)` on a character list. -/
def lstripAll (bad : List Char) (l : List Char) : List Char :=
  l.dropWhile (fun c => bad.contains c)

/-- Python `str.strip(bad)` on a character list (both ends). -/
def stripAll (bad : List Char) (l : List Char) : List Char :=
  rstripAll bad (lstripAll bad l)

/-- Most-significant-first decimal digits of `n`; the fuel argument bounds the
recursion depth (any `fuel ≥ n` is exact). -/
def natDigitsAux : ℕ → ℕ → List Char
  | 0, _ => []
  | fuel + 1, n => if n = 0 then [] else natDigitsAux fuel (n / 10) ++ [digitChar (n % 10)]

/-- Decimal rendering of a natural number (as Python `str(n)`). -/
def natDigits (n : ℕ) : List Char := if n = 0 then ['0'] else natDigitsAux n n

/-- Fold decimal digits into a number; fails on a non-digit. -/
def parseDigitsAux (acc : ℕ) : List Char → Option ℕ
  | [] => some acc
  | c :: cs => if isDigitB c then parseDigitsAux (acc * 10 + (c.toNat - 48)) cs else none

/-- Parse a non-empty all-digit string. -/
def parseDigits (l : List Char) : Option ℕ :=
  match l with
  | [] => none
  | _ => parseDigitsAux 0 l

/-- Split a character list at the first `'.'`. -/
def splitAtDot : List Char → List Char × Option (List Char)
  | [] => ([], none)
  | c :: cs =>
    if c = '.' then ([], some cs)
    else
      let p := splitAtDot cs
      (c :: p.1, p.2)

/-- Parse an unsigned decimal literal (`"12"` or `"12.05"`) as a `PyF`. -/
def parseDecimal (l : List Char) : Option PyF :=
  match splitAtDot l with
  | (ip, none) => (parseDigits ip).map PyF.ofNat
  | (ip, some fp) =>
    match parseDigits ip, parseDigits fp with
    | some i, some f =>
      some ⟨(i * 10 ^ fp.length + f : ℕ), ((10 : ℕ) ^ fp.length : ℕ), by positivity⟩
    | _, _ => none

/-- Parse an optionally `'-'`-signed decimal literal. -/
def parseSigned (l : List Char) : Option PyF :=
  match l with
  | [] => none
  | c :: rest => if c = '-' then (parseDecimal rest).map PyF.neg else parseDecimal (c :: rest)

/-- Does `pat` occur as a contiguous substring of `s`?  (Python `in`.) -/
def containsSub (s pat : List Char) : Bool :=
  match s with
  | [] => pat.isEmpty
  | _ :: tail => pat.isPrefixOf s || containsSub tail pat

/-! ### The SI unit codec

`float_to_si` / `si_to_float` from `src/faebryk/library/jlcpcb/util.py`,
including the embedded behaviour of the external `si_prefix` library. -/

/-- Depth-bounded truncated base-10 logarithm: `log10Aux fuel n` is
`⌊log10 n⌋` for `1 ≤ n ≤ fuel`. -/
def log10Aux : ℕ → ℕ → ℕ
  | 0, _ => 0
  | fuel + 1, n => if n < 10 then 0 else log10Aux fuel (n / 10) + 1

/-- `⌊log10 n⌋` for `n ≥ 1` (and `0` for `n = 0`). -/
def natLog10 (n : ℕ) : ℕ := log10Aux n n

/-- `⌊a⌋₊` of a `PyF` (`0` for negative values). -/
def pyfFloorNat (a : PyF) : ℕ := a.num.toNat / a.den.toNat

/-- Python `int(math.log10(v))` for `v > 0`: truncation toward zero of the
base-10 logarithm (from `si_prefix.split`). -/
def intLog10 (v : PyF) : ℤ :=
  if PyF.ofInt 1 ≤ v then (natLog10 (pyfFloorNat v) : ℤ)
  else -(natLog10 (pyfFloorNat v.inv) : ℤ)

/-- The engineering exponent chosen by `si_prefix.split` for `v > 0`. -/
def siExp (v : PyF) : ℤ :=
  let e0 := intLog10 v
  if 0 < e0 then ((e0.toNat / 3) * 3 : ℕ)
  else -((((-e0).toNat + 3) / 3 * 3 : ℕ))

/-- `si_prefix.split` for `v > 0`: mantissa in `[1, 1000)` and an exponent that
is a multiple of 3 (the `value >= 1000` renormalisation included). -/
def siSplit (v : PyF) : PyF × ℤ :=
  let e := siExp v
  let m := v.mul (PyF.pow10 (-e))
  if PyF.ofInt 1000 ≤ m then (m.mul (PyF.pow10 (-3)), e + 3) else (m, e)

/-- `si_prefix.split` on any value: the sign is factored out, `0` maps to
`(0, 0)`. -/
def siSplitSigned (v : PyF) : PyF × ℤ :=
  if (PyF.ofInt 0) ≤ v then
    if v ≤ PyF.ofInt 0 then (PyF.ofInt 0, 0) else siSplit v
  else
    let p := siSplit (-v)
    (-p.1, p.2)

/-- The mantissa rounded to two decimals, scaled by 100: `round(m * 100)` for
`m ≥ 0` (the `'%.2f'` conversion of `si_format`). -/
def round100 (m : PyF) : ℕ := (200 * m.num + m.den).toNat / (2 * m.den).toNat

/-- Render `n / 100` with two decimals and apply Python
`.rstrip("0").rstrip(".")` as in `float_to_si`. -/
def renderCenti (n : ℕ) : List Char :=
  rstripAll ['.'] (rstripAll ['0']
    (natDigits (n / 100) ++ '.' :: [digitChar (n % 100 / 10), digitChar (n % 100 % 10)]))

/-- The SI prefix string for an engineering exponent (from `si_prefix`'s prefix
table `"yzafpnµm kMGTPEZY"`; out-of-table exponents fall back to exponent
notation). -/
def siPrefixRaw (e : ℤ) : String :=
  if e = -24 then "y" else if e = -21 then "z" else if e = -18 then "a"
  else if e = -15 then "f" else if e = -12 then "p" else if e = -9 then "n"
  else if e = -6 then "µ" else if e = -3 then "m" else if e = 0 then ""
  else if e = 3 then "k" else if e = 6 then "M" else if e = 9 then "G"
  else if e = 12 then "T" else if e = 15 then "P" else if e = 18 then "E"
  else if e = 21 then "Z" else if e = 24 then "Y"
  else "e" ++ toString e

/-- Python `str.replace("µ", "u")` (the final normalisation in `float_to_si`:
"JLCPCB only uses 'u'"). -/
def muToU (s : String) : String := ⟨s.data.map (fun c => if c = 'µ' then 'u' else c)⟩

/-- `float_to_si` from `util.py` (finite values; the `±inf` special cases are
not representable in the rational model).  Renders with the `si_prefix`
library at `precision=2`, strips trailing zeros and a trailing dot, appends the
prefix and replaces `µ` by `u`. -/
def float_to_si (v : PyF) : String :=
  let p := siSplitSigned v
  let body :=
    if p.1 < PyF.ofInt 0 then "-" ++ String.mk (renderCenti (round100 (-p.1)))
    else String.mk (renderCenti (round100 p.1))
  muToU (body ++ siPrefixRaw p.2)

/-- The prefix-letter scale table of `si_parse` (`SI_PREFIX_UNITS`, index
relative to the blank entry). -/
def siPrefixLevel (c : Char) : Option ℤ :=
  if c = 'y' then some (-8) else if c = 'z' then some (-7) else if c = 'a' then some (-6)
  else if c = 'f' then some (-5) else if c = 'p' then some (-4) else if c = 'n' then some (-3)
  else if c = 'µ' then some (-2) else if c = 'm' then some (-1) else if c = ' ' then some 0
  else if c = 'k' then some 1 else if c = 'M' then some 2 else if c = 'G' then some 3
  else if c = 'T' then some 4 else if c = 'P' then some 5 else if c = 'E' then some 6
  else if c = 'Z' then some 7 else if c = 'Y' then some 8
  else none

/-- `si_to_float` from `util.py`: replace `u` by `µ`, strip trailing unit
letters (`Ω F H A V W z`), then `si_parse`: a trailing prefix letter scales the
decimal body by the matching power of 1000; a parse failure (Python exception)
is `none`. -/
def si_to_float (s : String) : Option PyF :=
  let l := s.data.map (fun c => if c = 'u' then 'µ' else c)
  let l2 := rstripAll ['Ω', 'F', 'H', 'A', 'V', 'W', 'z'] l
  match l2.getLast? with
  | none => none
  | some c =>
    match siPrefixLevel c with
    | some lv => (parseSigned l2.dropLast).map (fun w => w.mul (PyF.pow10 (3 * lv)))
    | none => parseSigned l2

/-! ### Parameter model and Python exceptions -/

/-- The faebryk parameter variants used by the engine (`Constant` / `Range` /
`TBD`). -/
inductive Param (α : Type) where
  | constant (value : α)
  | range (lo hi : α)
  | tbd

/-- The Python exceptions that can escape the embedded functions. -/
inductive PyError where
  | notImplementedError
  | lookupError
  | indexError
  | typeError
  | sqlError
deriving DecidableEq

/-- Does the parameter have the `Constant` shape? -/
def Param.isConstant {α : Type} : Param α → Bool
  | .constant _ => true
  | _ => false

/-! ### Tolerance predicate builders

`build_capacitor_tolerance_query` (capacitor_search.py, lines 39-85) and
`build_resistor_tolerance_query` (resistor_search.py, lines 23-69). -/

/-- Python `tolerance_str.replace("%", "\\%")`. -/
def escapePercent : List Char → List Char
  | [] => []
  | c :: cs => if c = '%' then '\\' :: '%' :: escapePercent cs else c :: escapePercent cs

/-- The `" OR "`-joined disjunction built by the `add_or` loops. -/
def joinOr : List String → String
  | [] => ""
  | [s] => s
  | s :: rest => s ++ " OR " ++ joinOr rest

/-- The capacitor tolerance-label table (label, absolute deviation at `value`);
the sub-pF labels are absolute, the percentage labels relative. -/
def capacitor_tolerances (value : PyF) : List (String × PyF) :=
  [("0.1pF", pyf 1 (10 ^ 13) (by positivity)),
   ("0.25pF", pyf 25 (10 ^ 14) (by positivity)),
   ("0.5pF", pyf 5 (10 ^ 13) (by positivity)),
   ("1%", (pyf 1 100 (by positivity)).mul value),
   ("2%", (pyf 2 100 (by positivity)).mul value),
   ("2.5%", (pyf 25 1000 (by positivity)).mul value),
   ("5%", (pyf 5 100 (by positivity)).mul value),
   ("10%", (pyf 10 100 (by positivity)).mul value),
   ("15%", (pyf 15 100 (by positivity)).mul value),
   ("20%", (pyf 20 100 (by positivity)).mul value)]

/-- The labels accepted by the capacitor builder's loop: absolute deviation
`<= max_tolerance_percent / 100 * value` and `> min_tolerance_percent / 100 *
value`. -/
def accepted_capacitor_tolerances (value maxp minp : PyF) : List (String × PyF) :=
  (capacitor_tolerances value).filter (fun lt =>
    decide (lt.2 ≤ (maxp.div (PyF.ofInt 100)).mul value) &&
    decide ((minp.div (PyF.ofInt 100)).mul value < lt.2))

/-- One `LIKE` disjunct of a tolerance query (`plusminus` differs between the
capacitor and resistor files). -/
def tolerance_like_frag (plusminus : String) (label : String) : String :=
  "description LIKE '%" ++ plusminus ++ String.mk (escapePercent label.data) ++ "%'" ++
    " ESCAPE '\\'"

/-- `build_capacitor_tolerance_query`: for `Constant` tolerance both bounds are
set to the same value; the nominal value is the `Constant` value or the `Range`
lower bound.  The source file's `plusminus` literal is the mojibake `"Â±"`. -/
def build_capacitor_tolerance_query (capacitance : Param PyF) (tolerance : Param PyF) :
    Except PyError String := do
  let bounds ←
    match tolerance with
    | .constant t => Except.ok (t, t)
    | .range lo hi => Except.ok (hi, lo)
    | .tbd => Except.error PyError.notImplementedError
  let value ←
    match capacitance with
    | .constant v => Except.ok v
    | .range lo _ => Except.ok lo
    | .tbd => Except.error PyError.notImplementedError
  Except.ok ("(" ++ joinOr ((accepted_capacitor_tolerances value bounds.1 bounds.2).map
    (fun lt => tolerance_like_frag "Â±" lt.1)) ++ ")")

/-- The resistor tolerance-label table (all labels relative). -/
def resistor_tolerances (r : PyF) : List (String × PyF) :=
  [("0.01%", (pyf 1 (10 ^ 4) (by positivity)).mul r),
   ("0.02%", (pyf 2 (10 ^ 4) (by positivity)).mul r),
   ("0.05%", (pyf 5 (10 ^ 4) (by positivity)).mul r),
   ("0.1%", (pyf 1 (10 ^ 3) (by positivity)).mul r),
   ("0.2%", (pyf 2 (10 ^ 3) (by positivity)).mul r),
   ("0.25%", (pyf 25 (10 ^ 4) (by positivity)).mul r),
   ("0.5%", (pyf 5 (10 ^ 3) (by positivity)).mul r),
   ("1%", (pyf 1 100 (by positivity)).mul r),
   ("2%", (pyf 2 100 (by positivity)).mul r),
   ("3%", (pyf 3 100 (by positivity)).mul r),
   ("5%", (pyf 5 100 (by positivity)).mul r),
   ("7.5%", (pyf 75 (10 ^ 3) (by positivity)).mul r),
   ("10%", (pyf 10 100 (by positivity)).mul r),
   ("15%", (pyf 15 100 (by positivity)).mul r),
   ("20%", (pyf 20 100 (by positivity)).mul r),
   ("30%", (pyf 30 100 (by positivity)).mul r)]

/-- The labels accepted by the resistor builder's loop: absolute deviation
`<= max_tolerance_percent / 100 * r` only (no lower exclusion). -/
def accepted_resistor_tolerances (r maxp : PyF) : List (String × PyF) :=
  (resistor_tolerances r).filter (fun lt =>
    decide (lt.2 ≤ (maxp.div (PyF.ofInt 100)).mul r))

/-- `build_resistor_tolerance_query`: raises `NotImplementedError` unless the
tolerance is `Constant`; nominal value from the resistance `Constant` value or
`Range` lower bound. -/
def build_resistor_tolerance_query (resistance : Param PyF) (tolerance : Param PyF) :
    Except PyError String := do
  let maxp ←
    match tolerance with
    | .constant t => Except.ok t
    | _ => Except.error PyError.notImplementedError
  let r ←
    match resistance with
    | .constant v => Except.ok v
    | .range lo _ => Except.ok lo
    | .tbd => Except.error PyError.notImplementedError
  Except.ok ("(" ++ joinOr ((accepted_resistor_tolerances r maxp).map
    (fun lt => tolerance_like_frag "±" lt.1)) ++ ")")

/-! ### Standard-value generation and the capacitor value query -/

/-- Floor of the base-10 logarithm of a positive `PyF`. -/
def floorLog10 (v : PyF) : ℤ :=
  if PyF.ofInt 1 ≤ v then (natLog10 (pyfFloorNat v) : ℤ)
  else
    let u := v.inv
    let k := natLog10 (pyfFloorNat u)
    if (PyF.pow10 (k : ℤ)).beq u then -(k : ℤ) else -(k : ℤ) - 1

/-- Ceiling of the base-10 logarithm of a positive `PyF`. -/
def ceilLog10 (v : PyF) : ℤ :=
  if PyF.ofInt 1 ≤ v then
    let k := natLog10 (pyfFloorNat v)
    if (PyF.pow10 (k : ℤ)).beq v then (k : ℤ) else (k : ℤ) + 1
  else -(natLog10 (pyfFloorNat v.inv) : ℤ)

/-- The closed integer interval `[lo, hi]` as a list. -/
def intRangeIncl (lo hi : ℤ) : List ℤ :=
  (List.range (hi - lo + 1).toNat).map (fun i => lo + i)

/-- Remove value-duplicates (Python-set semantics for floats), keeping first
occurrences in order. -/
def pyf_dedup_aux (seen : List PyF) : List PyF → List PyF
  | [] => []
  | x :: xs =>
    if seen.any (fun y => y.beq x) then pyf_dedup_aux seen xs
    else x :: pyf_dedup_aux (x :: seen) xs

/-- Modelled from the spec: `E24`, the published 24-mantissa standard series
(`library/e_series.py` is imported by the builders but absent from the source
snapshot). -/
def E24 : List PyF :=
  [pyf 10 10 (by norm_num), pyf 11 10 (by norm_num), pyf 12 10 (by norm_num),
   pyf 13 10 (by norm_num), pyf 15 10 (by norm_num), pyf 16 10 (by norm_num),
   pyf 18 10 (by norm_num), pyf 20 10 (by norm_num), pyf 22 10 (by norm_num),
   pyf 24 10 (by norm_num), pyf 27 10 (by norm_num), pyf 30 10 (by norm_num),
   pyf 33 10 (by norm_num), pyf 36 10 (by norm_num), pyf 39 10 (by norm_num),
   pyf 43 10 (by norm_num), pyf 47 10 (by norm_num), pyf 51 10 (by norm_num),
   pyf 56 10 (by norm_num), pyf 62 10 (by norm_num), pyf 68 10 (by norm_num),
   pyf 75 10 (by norm_num), pyf 82 10 (by norm_num), pyf 91 10 (by norm_num)]

/-- Modelled from the spec: `e_series_in_range` from the absent
`library/e_series.py`.  Per spec §4.2: for each decade exponent from
`floor(log10 min)` to `ceil(log10 max)` inclusive and each mantissa of the
series, keep `m * 10^e` when it lies in the closed interval; de-duplicate;
the enumeration order is already ascending. -/
def e_series_in_range (lo hi : PyF) : List PyF :=
  pyf_dedup_aux [] ((intRangeIncl (floorLog10 lo) (ceilLog10 hi)).flatMap
    (fun e => (E24.map (fun m => m.mul (PyF.pow10 e))).filter
      (fun v => decide (lo ≤ v) && decide (v ≤ hi))))

/-- The pair of `LIKE` disjuncts for one formatted value token. -/
def like_pair (vs : String) : String :=
  "description LIKE '% " ++ vs ++ "%' OR description LIKE '" ++ vs ++ "%'"

/-- `value_str.rstrip("nF")`. -/
def nf_stripped (value_str : String) : List Char := rstripAll ['n', 'F'] value_str.data

/-- Right-pad with `'0'` to width `w` (string formatting left-aligns with the
`'0'` fill character). -/
def padRightZeros (w : ℕ) (l : List Char) : List Char :=
  l ++ List.replicate (w - l.length) '0' 

/-- The microfarad respelling `f"0.{value_str.rstrip('nF'):03}".rstrip("0") + "uF"`
of a nanofarad token.  CPython (3.10 and later) formats a *string* argument
left-aligned with `'0'` as the fill character, so `"10"` formats to `"100"` and
the spelling produced for `10nF` is `0.1uF` — the wrong magnitude (on CPython
before 3.10 the `0` flag raises `ValueError` for a string argument; the 3.10+
result is the behaviour modelled). -/
def uf_spelling (value_str : String) : String :=
  String.mk (rstripAll ['0'] ('0' :: '.' :: padRightZeros 3 (nf_stripped value_str))) ++ "uF"

/-- Does the token trigger the dual-spelling branch?  (`"nF" in value_str`, no
decimal point, at least two digits before the suffix.) -/
def dual_band (value_str : String) : Bool :=
  containsSub value_str.data ['n', 'F'] && !(value_str.data.contains '.') &&
    decide (2 ≤ (nf_stripped value_str).length)

/-- The per-value fragment of the capacitor value query's `Range` branch,
including the conditional microfarad respelling. -/
def cap_value_fragment (v : PyF) : String :=
  let value_str := float_to_si v ++ "F"
  like_pair value_str ++
    (if dual_band value_str then " OR " ++ like_pair (uf_spelling value_str) else "")

/-- `build_capacitor_value_query` (capacitor_search.py, lines 88-124). -/
def build_capacitor_value_query (capacitance : Param PyF) : Except PyError String :=
  match capacitance with
  | .constant v => .ok ("(" ++ like_pair (float_to_si v ++ "F") ++ ")")
  | .range lo hi =>
    .ok ("(" ++ joinOr ((e_series_in_range lo hi).map cap_value_fragment) ++ ")")
  | .tbd => .error .notImplementedError

/-! ### The resistor search pipeline (resistor_search.py) -/

/-- `Resistor.CaseSize` (components.py): the `IntEnum` values and names. -/
def resistor_case_sizes : List (ℕ × String) :=
  [(1, "R01005"), (2, "R0201"), (3, "R0402"), (4, "R0603"), (5, "R0805"), (6, "R1008"),
   (7, "R1206"), (8, "R1210"), (9, "R1806"), (10, "R1812"), (11, "R1825"), (12, "R2010"),
   (13, "R2512")]

/-- `build_resistor_case_size_query`: enum members between the bounds, each
contributing a `package LIKE` fragment with the name's `"R"` stripped. -/
def build_resistor_case_size_query (case_size : Param ℕ) : Except PyError String := do
  let bounds ←
    match case_size with
    | .constant v => Except.ok (v, v)
    | .range lo hi => Except.ok (lo, hi)
    | .tbd => Except.error PyError.notImplementedError
  Except.ok ("(" ++ joinOr ((resistor_case_sizes.filter
    (fun cs => decide (bounds.1 ≤ cs.1) && decide (cs.1 ≤ bounds.2))).map
    (fun cs => "package LIKE '%" ++ String.mk (stripAll ['R'] cs.2.data) ++ "'")) ++ ")")

/-- One value disjunct of the resistor value query (with the `COLLATE` clause
of the source). -/
def resistor_like_pair (vs : String) : String :=
  "description COLLATE Latin1_General_BIN LIKE '% " ++ vs ++
    "%' OR description COLLATE Latin1_General_BIN LIKE '" ++ vs ++ "%'"

/-- `build_resistor_value_query` (resistor_search.py, lines 72-92). -/
def build_resistor_value_query (resistance : Param PyF) : Except PyError String :=
  match resistance with
  | .constant v => .ok ("(" ++ resistor_like_pair (float_to_si v ++ "Ω") ++ ")")
  | .range lo hi =>
    .ok ("(" ++ joinOr ((e_series_in_range lo hi).map
      (fun v => "(" ++ resistor_like_pair (float_to_si v ++ "Ω") ++ ")")) ++ ")")
  | .tbd => .error .notImplementedError

/-- One row of `find_resistor`'s `SELECT lcsc, basic, price, extra`. -/
structure ResistorRow where
  lcsc : ℤ
  basic : ℤ
  priceJson : String
  extra : Option (List (String × String))

/-- Attribute lookup in a record's parsed `extra` JSON (`none` models a
malformed blob, a missing `"attributes"` object or a missing key — all raise
in Python and are caught by the surrounding `except`). -/
def row_attr (key : String) (extra : Option (List (String × String))) : Option String :=
  extra.bind (fun attrs => attrs.lookup key)

/-- `resistor_filter` (resistor_search.py, lines 155-189): the rated-power
attribute stage.  `Constant` keeps a row iff the attribute parses and is
strictly greater than the requirement; `Range` keeps the closed interval;
parse failures drop the row. -/
def resistor_filter (query_result : List ResistorRow) (rated_power : Param PyF) :
    Except PyError (List ResistorRow) :=
  match rated_power with
  | .constant rp => .ok (query_result.filter (fun row =>
      match row_attr "Power(Watts)" row.extra with
      | none => false
      | some val =>
        if val = "-" then false
        else
          match si_to_float val with
          | none => false
          | some x => decide (rp < x)))
  | .range lo hi => .ok (query_result.filter (fun row =>
      match row_attr "Power(Watts)" row.extra with
      | none => false
      | some val =>
        if val = "-" then false
        else
          match si_to_float val with
          | none => false
          | some x => decide (lo ≤ x) && decide (x ≤ hi)))
  | .tbd => .error .notImplementedError

/-- The resistor `ComponentSpec` fields used by `find_resistor`. -/
structure ResistorSpec where
  resistance : Param PyF
  tolerance : Param PyF
  case_size : Param ℕ
  rated_power : Param PyF

/-- The predicate-building phase of `find_resistor` (lines 203-205), in source
order: case-size query, value query, tolerance query; any unsupported
constraint shape raises here, before the database is touched. -/
def build_resistor_queries (cmp : ResistorSpec) : Except PyError (String × String × String) := do
  let csq ← build_resistor_case_size_query cmp.case_size
  let rq ← build_resistor_value_query cmp.resistance
  let tq ← build_resistor_tolerance_query cmp.resistance cmp.tolerance
  Except.ok (csq, rq, tq)

/-- The SQL text interpolated by `find_resistor` (whitespace normalised; it is
only ever passed opaquely to the database). -/
def resistor_full_query (csq rq tq : String) (moq : ℤ) : String :=
  "SELECT lcsc, basic, price, extra FROM components WHERE (category_id = 46 or category_id = 52) AND "
    ++ csq ++ " AND stock > " ++ toString moq ++ " AND " ++ rq ++ " AND " ++ tq ++
    " ORDER BY basic DESC, price ASC"

/-- Modelled from the spec: the module-level `sort_by_basic_price` helper that
`find_resistor` imports from `util` is absent from the source snapshot (only
the `jlcpcb_db` method variant exists there).  Per spec §4.7 the ranker leaves
a list from which `find_resistor` takes row 0; its ordering details do not
matter for the claims below, so it is modelled as the identity arrangement of
the surviving rows. -/
def rank_rows (rows : List ResistorRow) : List ResistorRow := rows

/-- `find_resistor` (resistor_search.py, lines 192-231), with the database
abstracted as the function answering the interpolated SQL text.  The builders
run before any catalog access; an empty query result raises `LookupError`;
`res[0]` on a filtered-empty list raises `IndexError`. -/
def find_resistor (cmp : ResistorSpec) (db : String → List ResistorRow)
    (quantity moq : ℤ) : Except PyError String := do
  let qs ← build_resistor_queries cmp
  let res := db (resistor_full_query qs.1 qs.2.1 qs.2.2 moq)
  if res.isEmpty then Except.error PyError.lookupError
  else do
    let fres ← resistor_filter res cmp.rated_power
    let _ := quantity
    match rank_rows fres with
    | [] => Except.error PyError.indexError
    | r :: _ => Except.ok ("C" ++ String.mk (natDigits r.lcsc.toNat))

/-! ### The `jlcpcb_db` record pipeline (util.py) -/

/-- One entry of a part's `price` JSON list: `qTo` is an upper quantity bound
or the JSON `null` of the final unbounded tier. -/
structure PriceTier where
  qTo : Option ℤ
  price : PyF

/-- The `price` field of a part record: the stored JSON text (modelled
structurally) or, after `sort_by_basic_price` has run, the float written back
into the record. -/
inductive PriceField where
  | json (tiers : List PriceTier)
  | flt (value : PyF)

/-- `json.loads` applied to a price field: re-parsing the float that
`sort_by_basic_price` wrote back raises `TypeError` in Python 3. -/
def json_loads_price : PriceField → Except PyError (List PriceTier)
  | .json tiers => .ok tiers
  | .flt _ => .error .typeError

/-- A `jlcpcb_part` record (the TypedDict of util.py). -/
structure jlcpcb_part where
  lcsc_pn : ℤ
  manufacturer_pn : String
  basic : ℤ
  price : PriceField
  extra : Option (List (String × String))
  description : String

/-- The tier scan of `sort_by_basic_price`: Python evaluates
`quantity <= price_range["qTo"]` before the `== "null"` test, so reaching the
unbounded tier (JSON `null`) raises `TypeError` (`int` vs `NoneType`/`str`);
`ok none` models falling off the loop with no tier taken (the part is then
silently dropped). -/
def select_tier (quantity : ℤ) : List PriceTier → Except PyError (Option PyF)
  | [] => .ok none
  | t :: ts =>
    match t.qTo with
    | some n => if quantity ≤ n then .ok (some t.price) else select_tier quantity ts
    | none => .error .typeError

/-- The per-part loop of `sort_by_basic_price`: parse the price JSON, take the
first matching tier's price and write it back into the record (`int()` on the
already-integer `basic` field is the identity). -/
def collect_prices (quantity : ℤ) : List jlcpcb_part → Except PyError (List jlcpcb_part)
  | [] => .ok []
  | part :: rest => do
    let tiers ← json_loads_price part.price
    let sel ← select_tier quantity tiers
    let tail ← collect_prices quantity rest
    match sel with
    | some p => .ok ({ part with price := PriceField.flt p } :: tail)
    | none => .ok tail

/-- The float price of a processed record (`0` for an unprocessed record; after
`collect_prices` every record carries a float). -/
def part_price (part : jlcpcb_part) : PyF :=
  match part.price with
  | .flt q => q
  | .json _ => PyF.ofInt 0

/-- Strict comparison corresponding to Python's sort key
`(-row["basic"], row["price"])`. -/
def rank_lt (a b : jlcpcb_part) : Bool :=
  decide (b.basic < a.basic) ||
    (decide (a.basic = b.basic) && decide (part_price a < part_price b))

/-- Stable insertion of `x` after all strictly smaller elements. -/
def insertRanked (x : jlcpcb_part) : List jlcpcb_part → List jlcpcb_part
  | [] => [x]
  | y :: ys => if rank_lt y x then y :: insertRanked x ys else x :: y :: ys

/-- Stable sort by `(-basic, price)` (Python `sorted`). -/
def rankSort : List jlcpcb_part → List jlcpcb_part
  | [] => []
  | x :: xs => insertRanked x (rankSort xs)

/-- `jlcpcb_db.sort_by_basic_price` (util.py, lines 138-158): price-evaluate
every record at the order quantity, sort by (basic desc, price asc), store the
sorted list back into `self.results` and return `self.results[0]` —
`IndexError` when that list is empty. -/
def sort_by_basic_price (quantity : ℤ) (results : List jlcpcb_part) :
    Except PyError (jlcpcb_part × List jlcpcb_part) := do
  let collected ← collect_prices quantity results
  match rankSort collected with
  | [] => Except.error PyError.indexError
  | p :: rest => Except.ok (p, p :: rest)

/-- `jlcpcb_db.get_part` (util.py, lines 160-178): strip `"C"` from the part
number, select by `lcsc = pn` (interpolating a non-numeric part number is a
SQL error) and demand exactly one match, else `LookupError`. -/
def get_part (db : List jlcpcb_part) (lcsc_pn : String) : Except PyError jlcpcb_part :=
  match parseDigits (stripAll ['C'] lcsc_pn.data) with
  | none => Except.error PyError.sqlError
  | some n =>
    match db.filter (fun r => decide (r.lcsc_pn = (n : ℤ))) with
    | [r] => Except.ok r
    | _ => Except.error PyError.lookupError

/-- Parse one record's attribute `key` through `attr_fn` and the unit codec
(`none` for every exception path swallowed by the filter). -/
def parse_attr (attr_fn : String → String) (key : String) (part : jlcpcb_part) : Option PyF :=
  match row_attr key part.extra with
  | none => none
  | some s => si_to_float (attr_fn s)

/-- `jlcpcb_db.filter_results_by_extra_json_attributes` (util.py, lines
237-273): `Constant` tests float equality, `Range` the strict open interval;
any parse failure drops the record; an unknown parameter type only logs and
leaves the results unchanged. -/
def filter_results_by_extra_json_attributes (key : String) (value : Param PyF)
    (attr_fn : String → String) (results : List jlcpcb_part) : List jlcpcb_part :=
  match value with
  | .constant c => results.filter (fun part =>
      match parse_attr attr_fn key part with
      | some x => x.beq c
      | none => false)
  | .range lo hi => results.filter (fun part =>
      match parse_attr attr_fn key part with
      | some x => decide (lo < x) && decide (x < hi)
      | none => false)
  | .tbd => results

/-- One row of `inductor_filter`'s query result
(`SELECT lcsc, basic, price, extra, description`). -/
structure InductorRow where
  lcsc : ℤ
  basic : ℤ
  priceJson : String
  extra : Option (List (String × String))
  description : String

/-- The rated-current stage of `inductor_filter` (inductor_search.py, lines
230-253): `Constant` keeps a row iff the `"Rated Current"` attribute is
present, not the `"-"` marker, parses, and is strictly greater than the
requirement; `Range` keeps the strict open interval; parse failures drop the
row. -/
def inductor_rated_current_filter (rated_current : Param PyF)
    (query_result : List InductorRow) : Except PyError (List InductorRow) :=
  match rated_current with
  | .constant rc => .ok (query_result.filter (fun row =>
      match row_attr "Rated Current" row.extra with
      | none => false
      | some val =>
        if val = "-" then false
        else
          match si_to_float val with
          | none => false
          | some x => decide (rc < x)))
  | .range lo hi => .ok (query_result.filter (fun row =>
      match row_attr "Rated Current" row.extra with
      | none => false
      | some val =>
        match si_to_float val with
        | none => false
        | some x => decide (lo < x) && decide (x < hi)))
  | .tbd => .error .notImplementedError

/-! ## Theorems

First the bridge between the executable fraction type and `ℚ`, then the
printer/parser correctness of the codec, then the claims. -/

theorem PyF.den_q_pos (a : PyF) : (0 : ℚ) < (a.den : ℚ) := by
  exact_mod_cast a.dpos

theorem PyF.den_q_ne (a : PyF) : (a.den : ℚ) ≠ 0 := (PyF.den_q_pos a).ne'

theorem PyF.toQ_ofInt (n : ℤ) : (PyF.ofInt n).toQ = (n : ℚ) := by
  simp [PyF.toQ, PyF.ofInt]

theorem PyF.toQ_ofNat (n : ℕ) : (PyF.ofNat n).toQ = (n : ℚ) := by
  simp [PyF.toQ, PyF.ofNat]

theorem PyF.toQ_neg (a : PyF) : (PyF.neg a).toQ = -a.toQ := by
  simp [PyF.toQ, PyF.neg, neg_div]

theorem PyF.toQ_neg' (a : PyF) : (-a).toQ = -a.toQ := PyF.toQ_neg a

theorem PyF.toQ_mul (a b : PyF) : (a.mul b).toQ = a.toQ * b.toQ := by
  simp only [PyF.toQ, PyF.mul]
  push_cast
  rw [div_mul_div_comm]

theorem PyF.toQ_inv (a : PyF) : a.inv.toQ = (a.toQ)⁻¹ := by
  unfold PyF.inv
  split
  · simp only [PyF.toQ, inv_div]
  · split
    · rename_i h h'
      simp only [PyF.toQ, inv_div]
      push_cast
      rw [div_neg, neg_div, neg_neg]
    · rename_i h h'
      have hz : a.num = 0 := by omega
      simp [PyF.toQ, hz]

theorem PyF.toQ_div (a b : PyF) : (a.div b).toQ = a.toQ / b.toQ := by
  rw [PyF.div, PyF.toQ_mul, PyF.toQ_inv, div_eq_mul_inv]

theorem PyF.le_iff (a b : PyF) : a ≤ b ↔ a.toQ ≤ b.toQ := by
  show a.num * b.den ≤ b.num * a.den ↔ _
  rw [PyF.toQ, PyF.toQ, div_le_div_iff₀ (PyF.den_q_pos a) (PyF.den_q_pos b)]
  exact_mod_cast Iff.rfl

theorem PyF.lt_iff (a b : PyF) : a < b ↔ a.toQ < b.toQ := by
  show a.num * b.den < b.num * a.den ↔ _
  rw [PyF.toQ, PyF.toQ, div_lt_div_iff₀ (PyF.den_q_pos a) (PyF.den_q_pos b)]
  exact_mod_cast Iff.rfl

theorem PyF.beq_iff (a b : PyF) : a.beq b = true ↔ a.toQ = b.toQ := by
  unfold PyF.beq
  rw [beq_iff_eq, PyF.toQ, PyF.toQ,
    div_eq_div_iff (PyF.den_q_ne a) (PyF.den_q_ne b)]
  exact_mod_cast Iff.rfl

theorem PyF.toQ_pow10 (e : ℤ) : (PyF.pow10 e).toQ = (10 : ℚ) ^ e := by
  unfold PyF.pow10
  split
  · rename_i h
    simp only [PyF.toQ]
    push_cast
    rw [div_one, ← zpow_natCast, Int.toNat_of_nonneg h]
  · rename_i h
    simp only [PyF.toQ]
    push_cast
    rw [one_div, ← zpow_natCast, Int.toNat_of_nonneg (by omega : (0:ℤ) ≤ -e), ← zpow_neg,
      neg_neg]

/-! ### Printer/parser correctness of the decimal renderer -/

theorem ne_of_toNat_ne {a b : Char} (h : a.toNat ≠ b.toNat) : a ≠ b :=
  fun hc => h (by rw [hc])

theorem digitChar_isDigit {d : ℕ} (h : d < 10) : isDigitB (digitChar d) = true := by
  interval_cases d <;> decide

theorem digitChar_toNat {d : ℕ} (h : d < 10) : (digitChar d).toNat = 48 + d := by
  interval_cases d <;> decide

theorem digit_toNat_bounds {c : Char} (h : isDigitB c = true) :
    48 ≤ c.toNat ∧ c.toNat ≤ 57 := by
  simpa [isDigitB, Bool.and_eq_true, decide_eq_true_eq] using h

theorem parseDigitsAux_append (acc : ℕ) (l1 l2 : List Char) :
    parseDigitsAux acc (l1 ++ l2) =
      match parseDigitsAux acc l1 with
      | some a => parseDigitsAux a l2
      | none => none := by
  induction l1 generalizing acc with
  | nil => simp [parseDigitsAux]
  | cons c cs ih =>
    simp only [List.cons_append, parseDigitsAux]
    by_cases h : isDigitB c
    · rw [if_pos h, if_pos h]
      exact ih _
    · rw [if_neg h, if_neg h]

theorem natDigitsAux_parse (fuel : ℕ) : ∀ n acc, n ≤ fuel →
    parseDigitsAux acc (natDigitsAux fuel n) =
      some (acc * 10 ^ (natDigitsAux fuel n).length + n) := by
  induction fuel with
  | zero =>
    intro n acc h
    interval_cases n
    simp [natDigitsAux, parseDigitsAux]
  | succ f ih =>
    intro n acc h
    by_cases hn : n = 0
    · subst hn; simp [natDigitsAux, parseDigitsAux]
    · have hdiv : n / 10 ≤ f := by omega
      have hmod : n % 10 < 10 := Nat.mod_lt _ (by norm_num)
      simp only [natDigitsAux, if_neg hn]
      rw [parseDigitsAux_append, ih (n / 10) acc hdiv]
      simp only [parseDigitsAux, digitChar_isDigit hmod, if_true, digitChar_toNat hmod,
        List.length_append, List.length_cons, List.length_nil]
      congr 1
      have hsplit : n / 10 * 10 + n % 10 = n := by omega
      have : 48 + n % 10 - 48 = n % 10 := by omega
      rw [this, pow_succ]
      calc (acc * 10 ^ (natDigitsAux f (n / 10)).length + n / 10) * 10 + n % 10
          = acc * (10 ^ (natDigitsAux f (n / 10)).length * 10) + (n / 10 * 10 + n % 10) := by
            ring
        _ = acc * (10 ^ (natDigitsAux f (n / 10)).length * 10) + n := by rw [hsplit]

theorem natDigitsAux_ne_nil {fuel n : ℕ} (hn : n ≠ 0) (hf : fuel ≠ 0) :
    natDigitsAux fuel n ≠ [] := by
  cases fuel with
  | zero => exact absurd rfl hf
  | succ f => simp [natDigitsAux, hn]

theorem parseDigits_natDigits (n : ℕ) : parseDigits (natDigits n) = some n := by
  by_cases hn : n = 0
  · subst hn; decide
  · unfold natDigits
    rw [if_neg hn]
    obtain ⟨c, cs, hcc⟩ := List.exists_cons_of_ne_nil (natDigitsAux_ne_nil hn hn)
    unfold parseDigits
    rw [hcc]
    show parseDigitsAux 0 (c :: cs) = some n
    rw [← hcc, natDigitsAux_parse n n 0 le_rfl]
    simp

theorem natDigitsAux_digits (fuel : ℕ) : ∀ n c, c ∈ natDigitsAux fuel n → isDigitB c = true := by
  induction fuel with
  | zero => intro n c h; simp [natDigitsAux] at h
  | succ f ih =>
    intro n c h
    by_cases hn : n = 0
    · rw [natDigitsAux, if_pos hn] at h; simp at h
    · rw [natDigitsAux, if_neg hn] at h
      rcases List.mem_append.mp h with h | h
      · exact ih _ _ h
      · rw [List.mem_singleton] at h
        subst h
        exact digitChar_isDigit (Nat.mod_lt _ (by norm_num))

theorem natDigits_digits {n : ℕ} {c : Char} (h : c ∈ natDigits n) : isDigitB c = true := by
  unfold natDigits at h
  split at h
  · simp only [List.mem_singleton] at h; subst h; decide
  · exact natDigitsAux_digits n n c h

theorem natDigits_concat {n : ℕ} (hn : n ≠ 0) :
    ∃ l d, natDigits n = l ++ [d] ∧ isDigitB d = true := by
  unfold natDigits
  rw [if_neg hn]
  cases n with
  | zero => exact absurd rfl hn
  | succ f =>
    refine ⟨natDigitsAux f ((f + 1) / 10), digitChar ((f + 1) % 10), ?_, ?_⟩
    · rw [natDigitsAux, if_neg hn]
    · exact digitChar_isDigit (Nat.mod_lt _ (by norm_num))

theorem splitAtDot_no_dot {l : List Char} (h : '.' ∉ l) : splitAtDot l = (l, none) := by
  induction l with
  | nil => rfl
  | cons c cs ih =>
    simp only [List.mem_cons, not_or] at h
    rw [splitAtDot, if_neg (fun hc => h.1 hc.symm), ih h.2]

theorem splitAtDot_append {l r : List Char} (h : '.' ∉ l) :
    splitAtDot (l ++ '.' :: r) = (l, some r) := by
  induction l with
  | nil => simp [splitAtDot]
  | cons c cs ih =>
    simp only [List.mem_cons, not_or] at h
    rw [List.cons_append, splitAtDot, if_neg (fun hc => h.1 hc.symm), ih h.2]

theorem mem_rstripAll {bad l : List Char} {c : Char} (h : c ∈ rstripAll bad l) : c ∈ l := by
  unfold rstripAll at h
  rw [List.mem_reverse] at h
  exact List.mem_reverse.mp ((List.dropWhile_sublist _).mem h)

theorem rstripAll_last_keep {bad l : List Char} {c : Char}
    (h : bad.contains c = false) : rstripAll bad (l ++ [c]) = l ++ [c] := by
  unfold rstripAll
  rw [List.reverse_append]
  show (List.dropWhile _ (c :: l.reverse)).reverse = _
  rw [List.dropWhile_cons, h]
  simp

theorem dropWhile_eq_self_of_all {p : Char → Bool} {l : List Char}
    (h : ∀ c ∈ l, p c = false) : l.dropWhile p = l := by
  cases l with
  | nil => rfl
  | cons c cs =>
    rw [List.dropWhile_cons, h c (List.mem_cons_self c cs)]
    simp

theorem digit_enum {c : Char} (h : isDigitB c = true) :
    c = '0' ∨ c = '1' ∨ c = '2' ∨ c = '3' ∨ c = '4' ∨ c = '5' ∨ c = '6' ∨ c = '7' ∨
      c = '8' ∨ c = '9' := by
  obtain ⟨h1, h2⟩ := digit_toNat_bounds h
  have hc : c = Char.ofNat c.toNat := (Char.ofNat_toNat c).symm
  set k := c.toNat with hk
  interval_cases k <;> rw [hc] <;> simp

theorem containsDot_digit {c : Char} (h : isDigitB c = true) : (['.'].contains c) = false := by
  rcases digit_enum h with h | h | h | h | h | h | h | h | h | h <;> subst h <;> decide

theorem contains0_digit {c : Char} (h : isDigitB c = true) (hz : c ≠ '0') :
    (['0'].contains c) = false := by
  rcases digit_enum h with h | h | h | h | h | h | h | h | h | h <;> subst h <;>
    first
      | exact absurd rfl hz
      | decide

theorem units_keep_digit {c : Char} (h : isDigitB c = true) :
    (['Ω', 'F', 'H', 'A', 'V', 'W', 'z'].contains c) = false := by
  rcases digit_enum h with h | h | h | h | h | h | h | h | h | h <;> subst h <;> decide

theorem siPrefixLevel_digit {c : Char} (h : isDigitB c = true) : siPrefixLevel c = none := by
  rcases digit_enum h with h | h | h | h | h | h | h | h | h | h <;> subst h <;> decide

theorem rstripAll_append_of_ne_nil {bad l s : List Char} (h : rstripAll bad s ≠ []) :
    rstripAll bad (l ++ s) = l ++ rstripAll bad s := by
  unfold rstripAll at h ⊢
  rw [List.reverse_append, List.dropWhile_append]
  have hne : (List.dropWhile (fun c => bad.contains c) s.reverse).isEmpty = false := by
    rw [List.isEmpty_eq_false]
    intro hnil
    exact h (by rw [hnil]; rfl)
  rw [hne]
  simp

theorem rstripAll_append_of_all_bad {bad l s : List Char} (hs : rstripAll bad s = []) :
    rstripAll bad (l ++ s) = rstripAll bad l := by
  unfold rstripAll at hs ⊢
  rw [List.reverse_append, List.dropWhile_append]
  have hemp : (List.dropWhile (fun c => bad.contains c) s.reverse).isEmpty = true := by
    have : List.dropWhile (fun c => bad.contains c) s.reverse = [] := by
      have := congrArg List.reverse hs
      simpa using this
    rw [this]
    rfl
  rw [hemp]
  simp

theorem rstripAll_digits_last {bad l : List Char}
    (hl : ∃ l' d, l = l' ++ [d] ∧ isDigitB d = true)
    (hbad : ∀ c, isDigitB c = true → bad.contains c = false) :
    rstripAll bad l = l := by
  obtain ⟨l', d, hld, hd⟩ := hl
  rw [hld]
  exact rstripAll_last_keep (hbad d hd)

theorem digit_ne_minus {c : Char} (h : isDigitB c = true) : c ≠ '-' := by
  intro hc
  rw [hc] at h
  exact absurd h (by decide)

theorem digitChar_ne_zero {k : ℕ} (h : k < 10) (h0 : k ≠ 0) : digitChar k ≠ '0' := by
  interval_cases k <;> first | exact absurd rfl h0 | decide

theorem parseSigned_no_minus {l : List Char} (hne : l ≠ [])
    (hhead : ∀ c ∈ l, c ≠ '-') : parseSigned l = parseDecimal l := by
  obtain ⟨c, cs, rfl⟩ := List.exists_cons_of_ne_nil hne
  show (if c = '-' then (parseDecimal cs).map PyF.neg else parseDecimal (c :: cs)) = _
  rw [if_neg (hhead c (List.mem_cons_self c cs))]

theorem parseDecimal_no_dot {l : List Char} (h : '.' ∉ l) :
    parseDecimal l = (parseDigits l).map PyF.ofNat := by
  unfold parseDecimal
  rw [splitAtDot_no_dot h]

theorem parseDigits_single {k : ℕ} (h : k < 10) : parseDigits [digitChar k] = some k := by
  unfold parseDigits parseDigitsAux parseDigitsAux
  rw [digitChar_isDigit h, digitChar_toNat h]
  simp

theorem parseDigits_pair {k1 k2 : ℕ} (h1 : k1 < 10) (h2 : k2 < 10) :
    parseDigits [digitChar k1, digitChar k2] = some (k1 * 10 + k2) := by
  unfold parseDigits parseDigitsAux parseDigitsAux parseDigitsAux
  rw [digitChar_isDigit h1, digitChar_toNat h1, digitChar_isDigit h2, digitChar_toNat h2]
  simp

theorem renderCenti_eq {n : ℕ} (hn : 100 ≤ n) :
    (n % 100 = 0 ∧ renderCenti n = natDigits (n / 100)) ∨
    (n % 100 ≠ 0 ∧ n % 100 % 10 = 0 ∧
      renderCenti n = natDigits (n / 100) ++ '.' :: [digitChar (n % 100 / 10)]) ∨
    (n % 100 % 10 ≠ 0 ∧
      renderCenti n = natDigits (n / 100) ++
        '.' :: [digitChar (n % 100 / 10), digitChar (n % 100 % 10)]) := by
  have hq0 : n / 100 ≠ 0 := by omega
  obtain ⟨ld, dd, hld, hdd⟩ := natDigits_concat hq0
  by_cases hr0 : n % 100 = 0
  · refine Or.inl ⟨hr0, ?_⟩
    unfold renderCenti
    rw [hr0]
    simp only [Nat.zero_div, Nat.zero_mod]
    have e : digitChar 0 = '0' := rfl
    rw [e]
    have hs1 : rstripAll ['0'] ('.' :: ['0', '0']) = ['.'] := by decide
    have hne : rstripAll ['0'] ('.' :: ['0', '0']) ≠ [] := by rw [hs1]; simp
    rw [rstripAll_append_of_ne_nil hne, hs1,
      rstripAll_append_of_all_bad (by decide : rstripAll ['.'] (['.'] : List Char) = []),
      rstripAll_digits_last ⟨ld, dd, hld, hdd⟩ (fun c hc => containsDot_digit hc)]
  · by_cases hr10 : n % 100 % 10 = 0
    · refine Or.inr (Or.inl ⟨hr0, hr10, ?_⟩)
      have hk10 : n % 100 / 10 < 10 := by omega
      have hk0 : n % 100 / 10 ≠ 0 := by omega
      unfold renderCenti
      rw [hr10]
      have e2 : digitChar 0 = '0' := rfl
      rw [e2]
      have hs1 : rstripAll ['0'] ('.' :: [digitChar (n % 100 / 10), '0']) =
          ['.', digitChar (n % 100 / 10)] := by
        show rstripAll ['0'] (['.', digitChar (n % 100 / 10)] ++ ['0']) = _
        rw [rstripAll_append_of_all_bad (by decide : rstripAll ['0'] (['0'] : List Char) = [])]
        show rstripAll ['0'] (['.'] ++ [digitChar (n % 100 / 10)]) = _
        rw [rstripAll_last_keep (contains0_digit (digitChar_isDigit hk10)
          (digitChar_ne_zero hk10 hk0))]
        simp
      have hne : rstripAll ['0'] ('.' :: [digitChar (n % 100 / 10), '0']) ≠ [] := by
        rw [hs1]; simp
      rw [rstripAll_append_of_ne_nil hne, hs1]
      have hassoc : natDigits (n / 100) ++ ['.', digitChar (n % 100 / 10)] =
          (natDigits (n / 100) ++ ['.']) ++ [digitChar (n % 100 / 10)] := by simp
      rw [hassoc, rstripAll_last_keep (containsDot_digit (digitChar_isDigit hk10))]
    · refine Or.inr (Or.inr ⟨hr10, ?_⟩)
      have hk10 : n % 100 / 10 < 10 := by omega
      have hk20 : n % 100 % 10 < 10 := by omega
      unfold renderCenti
      have hassoc : natDigits (n / 100) ++
          '.' :: [digitChar (n % 100 / 10), digitChar (n % 100 % 10)] =
          (natDigits (n / 100) ++ ['.', digitChar (n % 100 / 10)]) ++
            [digitChar (n % 100 % 10)] := by simp
      rw [hassoc,
        rstripAll_last_keep (contains0_digit (digitChar_isDigit hk20)
          (digitChar_ne_zero hk20 hr10)),
        rstripAll_last_keep (containsDot_digit (digitChar_isDigit hk20))]

theorem parse_body_nofrac {q : ℕ} (hq : q ≠ 0) :
    parseSigned (natDigits q) = some (PyF.ofNat q) := by
  have hdotq : '.' ∉ natDigits q := fun hmem => by
    have := natDigits_digits hmem
    exact absurd this (by decide)
  obtain ⟨ld, dd, hld, hdd⟩ := natDigits_concat hq
  rw [parseSigned_no_minus (by rw [hld]; simp)
      (fun c hc => digit_ne_minus (natDigits_digits hc)),
    parseDecimal_no_dot hdotq, parseDigits_natDigits]
  rfl

theorem parse_body_frac {q : ℕ} (hq : q ≠ 0) {fp : List Char}
    (hdigits : ∀ c ∈ fp, isDigitB c = true) {f : ℕ} (hparse : parseDigits fp = some f) :
    ∃ w : PyF, parseSigned (natDigits q ++ '.' :: fp) = some w ∧
      w.toQ = (q : ℚ) + (f : ℚ) / (10 : ℚ) ^ fp.length := by
  have hdotq : '.' ∉ natDigits q := fun hmem => by
    have := natDigits_digits hmem
    exact absurd this (by decide)
  have hhead : ∀ c ∈ natDigits q ++ '.' :: fp, c ≠ '-' := by
    intro c hc
    rw [List.mem_append] at hc
    rcases hc with hc | hc
    · exact digit_ne_minus (natDigits_digits hc)
    · rcases List.mem_cons.mp hc with hc | hc
      · subst hc; decide
      · exact digit_ne_minus (hdigits c hc)
  have hne : natDigits q ++ '.' :: fp ≠ [] := by
    obtain ⟨ld, dd, hld, _⟩ := natDigits_concat hq
    rw [hld]; simp
  rw [parseSigned_no_minus hne hhead]
  have h1 : parseDecimal (natDigits q ++ '.' :: fp) =
      match parseDigits (natDigits q), parseDigits fp with
      | some i, some f =>
        some ⟨(i * 10 ^ fp.length + f : ℕ), ((10 : ℕ) ^ fp.length : ℕ), by positivity⟩
      | _, _ => none := by
    unfold parseDecimal
    rw [splitAtDot_append hdotq]
  rw [h1, parseDigits_natDigits, hparse]
  refine ⟨_, rfl, ?_⟩
  show ((q * 10 ^ fp.length + f : ℕ) : ℚ) / (((10 : ℕ) ^ fp.length : ℕ) : ℚ) = _
  have hpow : ((10 : ℕ) ^ fp.length : ℚ) ≠ 0 := by positivity
  push_cast
  field_simp

theorem renderCenti_spec {n : ℕ} (hn : 100 ≤ n) :
    (∃ w : PyF, parseSigned (renderCenti n) = some w ∧ w.toQ = (n : ℚ) / 100) ∧
    (∀ c ∈ renderCenti n, isDigitB c = true ∨ c = '.') ∧
    (∃ l d, renderCenti n = l ++ [d] ∧ isDigitB d = true) := by
  have hq0 : n / 100 ≠ 0 := by omega
  obtain ⟨ld, dd, hld, hdd⟩ := natDigits_concat hq0
  have hcs : ∀ c ∈ renderCenti n, isDigitB c = true ∨ c = '.' := by
    intro c hc
    have h1 := mem_rstripAll (mem_rstripAll hc)
    rw [List.mem_append] at h1
    rcases h1 with h1 | h1
    · exact Or.inl (natDigits_digits h1)
    · rcases List.mem_cons.mp h1 with h1 | h1
      · exact Or.inr h1
      · rcases List.mem_cons.mp h1 with h1 | h1
        · subst h1; exact Or.inl (digitChar_isDigit (by omega))
        · rw [List.mem_singleton] at h1; subst h1
          exact Or.inl (digitChar_isDigit (by omega))
  have hQ : (n : ℚ) = 100 * ((n / 100 : ℕ) : ℚ) + ((n % 100 : ℕ) : ℚ) := by
    exact_mod_cast (by omega : n = 100 * (n / 100) + n % 100)
  rcases renderCenti_eq hn with ⟨hr0, hrw⟩ | ⟨hr0, hr10, hrw⟩ | ⟨hr10, hrw⟩
  · refine ⟨⟨PyF.ofNat (n / 100), ?_, ?_⟩, hcs, ?_⟩
    · rw [hrw]; exact parse_body_nofrac hq0
    · rw [PyF.toQ_ofNat, hQ, hr0]
      push_cast
      ring
    · exact ⟨ld, dd, by rw [hrw, hld], hdd⟩
  · have hk10 : n % 100 / 10 < 10 := by omega
    obtain ⟨w, hw, hwq⟩ := parse_body_frac hq0
      (by intro c hc; rw [List.mem_singleton] at hc; subst hc
          exact digitChar_isDigit hk10)
      (parseDigits_single hk10)
    refine ⟨⟨w, ?_, ?_⟩, hcs, ?_⟩
    · rw [hrw]; exact hw
    · rw [hwq, hQ]
      have hr : ((n % 100 : ℕ) : ℚ) = 10 * ((n % 100 / 10 : ℕ) : ℚ) := by
        exact_mod_cast (by omega : n % 100 = 10 * (n % 100 / 10))
      rw [hr]
      field_simp
      try ring
    · exact ⟨natDigits (n / 100) ++ ['.'], digitChar (n % 100 / 10),
        by rw [hrw]; simp, digitChar_isDigit hk10⟩
  · have hk10 : n % 100 / 10 < 10 := by omega
    have hk20 : n % 100 % 10 < 10 := by omega
    obtain ⟨w, hw, hwq⟩ := parse_body_frac hq0
      (by intro c hc
          rcases List.mem_cons.mp hc with hc | hc
          · subst hc; exact digitChar_isDigit hk10
          · rw [List.mem_singleton] at hc; subst hc; exact digitChar_isDigit hk20)
      (parseDigits_pair hk10 hk20)
    refine ⟨⟨w, ?_, ?_⟩, hcs, ?_⟩
    · rw [hrw]; exact hw
    · rw [hwq, hQ]
      have hr : ((n % 100 : ℕ) : ℚ) =
          10 * ((n % 100 / 10 : ℕ) : ℚ) + ((n % 100 % 10 : ℕ) : ℚ) := by
        exact_mod_cast (by omega : n % 100 = 10 * (n % 100 / 10) + n % 100 % 10)
      rw [hr]
      push_cast
      field_simp
      try ring
    · exact ⟨natDigits (n / 100) ++ ['.', digitChar (n % 100 / 10)], digitChar (n % 100 % 10),
        by rw [hrw]; simp, digitChar_isDigit hk20⟩

/-! ### Arithmetic correctness of the split -/

theorem log10Aux_spec : ∀ fuel n, 1 ≤ n → n ≤ fuel →
    10 ^ log10Aux fuel n ≤ n ∧ n < 10 ^ (log10Aux fuel n + 1) := by
  intro fuel
  induction fuel with
  | zero => intro n h1 h2; omega
  | succ f ih =>
    intro n h1 h2
    by_cases hn : n < 10
    · rw [log10Aux, if_pos hn]
      constructor
      · simpa using h1
      · simpa using hn
    · rw [log10Aux, if_neg hn]
      have h10 : 1 ≤ n / 10 := by omega
      have hf : n / 10 ≤ f := by omega
      obtain ⟨hlo, hhi⟩ := ih (n / 10) h10 hf
      have hlo10 : 10 ^ log10Aux f (n / 10) * 10 ≤ n / 10 * 10 :=
        Nat.mul_le_mul_right _ hlo
      have hhi10 : (n / 10 + 1) * 10 ≤ 10 ^ (log10Aux f (n / 10) + 1) * 10 :=
        Nat.mul_le_mul_right _ (by omega)
      constructor
      · rw [pow_succ]
        omega
      · rw [pow_succ, pow_succ]
        omega

theorem natLog10_spec {n : ℕ} (h : 1 ≤ n) :
    10 ^ natLog10 n ≤ n ∧ n < 10 ^ (natLog10 n + 1) :=
  log10Aux_spec n n h le_rfl

theorem PyF.num_pos_iff (a : PyF) : 0 < a.toQ ↔ 0 < a.num := by
  rw [PyF.toQ, div_pos_iff]
  constructor
  · rintro (⟨h1, _⟩ | ⟨_, h2⟩)
    · exact_mod_cast h1
    · exact absurd h2 (not_lt.mpr (PyF.den_q_pos a).le)
  · intro h
    exact Or.inl ⟨by exact_mod_cast h, PyF.den_q_pos a⟩

theorem pyfFloorNat_eq (a : PyF) : pyfFloorNat a = ⌊a.toQ⌋₊ := by
  unfold pyfFloorNat
  by_cases hn : 0 ≤ a.num
  · have hq : a.toQ = ((a.num.toNat : ℕ) : ℚ) / ((a.den.toNat : ℕ) : ℚ) := by
      rw [PyF.toQ]
      congr 1
      · exact_mod_cast (Int.toNat_of_nonneg hn).symm
      · exact_mod_cast (Int.toNat_of_nonneg a.dpos.le).symm
    rw [hq, Nat.floor_div_nat, Nat.floor_natCast]
  · have h0 : a.num.toNat = 0 := Int.toNat_of_nonpos (by omega)
    rw [h0]
    have hq : a.toQ < 1 := by
      rw [PyF.toQ]
      have hnum : (a.num : ℚ) < 0 := by exact_mod_cast (by omega : a.num < 0)
      calc (a.num : ℚ) / (a.den : ℚ) < 0 := div_neg_of_neg_of_pos hnum (PyF.den_q_pos a)
        _ < 1 := one_pos
    rw [Nat.floor_eq_zero.mpr hq]
    simp

theorem zero_lt_ten_zpow (i : ℤ) : (0 : ℚ) < 10 ^ i := zpow_pos (by norm_num) i

theorem ten_zpow_le {i j : ℤ} (h : i ≤ j) : (10 : ℚ) ^ i ≤ 10 ^ j :=
  zpow_le_zpow_right₀ (by norm_num) h

theorem intLog10_spec_ge_one {v : PyF} (h1 : 1 ≤ v.toQ) :
    0 ≤ intLog10 v ∧ (10 : ℚ) ^ intLog10 v ≤ v.toQ ∧ v.toQ < 10 ^ (intLog10 v + 1) := by
  have hcond : PyF.ofInt 1 ≤ v := (PyF.le_iff _ _).mpr (by rw [PyF.toQ_ofInt]; exact_mod_cast h1)
  unfold intLog10
  rw [if_pos hcond, pyfFloorNat_eq]
  have hF : 1 ≤ ⌊v.toQ⌋₊ := Nat.le_floor (by exact_mod_cast h1)
  obtain ⟨hlo, hhi⟩ := natLog10_spec hF
  have hfl : (⌊v.toQ⌋₊ : ℚ) ≤ v.toQ := Nat.floor_le (by linarith)
  have hfh : v.toQ < (⌊v.toQ⌋₊ : ℚ) + 1 := Nat.lt_floor_add_one _
  refine ⟨by positivity, ?_, ?_⟩
  · rw [zpow_natCast]
    calc ((10 : ℚ) ^ natLog10 ⌊v.toQ⌋₊) ≤ (⌊v.toQ⌋₊ : ℚ) := by exact_mod_cast hlo
      _ ≤ v.toQ := hfl
  · have : ((natLog10 ⌊v.toQ⌋₊ : ℤ) + 1) = ((natLog10 ⌊v.toQ⌋₊ + 1 : ℕ) : ℤ) := by push_cast; ring
    rw [this, zpow_natCast]
    have hstep : (⌊v.toQ⌋₊ : ℚ) + 1 ≤ (10 : ℚ) ^ (natLog10 ⌊v.toQ⌋₊ + 1) := by
      exact_mod_cast (by omega : ⌊v.toQ⌋₊ + 1 ≤ 10 ^ (natLog10 ⌊v.toQ⌋₊ + 1))
    linarith

theorem intLog10_spec_lt_one {v : PyF} (h0 : 0 < v.toQ) (h1 : v.toQ < 1) :
    intLog10 v ≤ 0 ∧ (10 : ℚ) ^ (intLog10 v - 1) < v.toQ ∧ v.toQ ≤ 10 ^ intLog10 v := by
  have hcond : ¬(PyF.ofInt 1 ≤ v) := fun h =>
    absurd ((PyF.le_iff _ _).mp h) (by rw [PyF.toQ_ofInt]; exact not_le.mpr (by exact_mod_cast h1))
  unfold intLog10
  rw [if_neg hcond, pyfFloorNat_eq, PyF.toQ_inv]
  clear hcond
  have hu1 : 1 < (v.toQ)⁻¹ := (one_lt_inv₀ h0).mpr h1
  have hu0 : 0 < (v.toQ)⁻¹ := by linarith
  have hF : 1 ≤ ⌊(v.toQ)⁻¹⌋₊ := Nat.le_floor (by exact_mod_cast hu1.le)
  obtain ⟨hlo, hhi⟩ := natLog10_spec hF
  have hfl : ((⌊(v.toQ)⁻¹⌋₊ : ℕ) : ℚ) ≤ (v.toQ)⁻¹ := Nat.floor_le hu0.le
  have hfh : (v.toQ)⁻¹ < ((⌊(v.toQ)⁻¹⌋₊ : ℕ) : ℚ) + 1 := Nat.lt_floor_add_one _
  set K := natLog10 ⌊(v.toQ)⁻¹⌋₊ with hK
  have hKlo : ((10 : ℚ) ^ K : ℚ) ≤ (v.toQ)⁻¹ := by
    calc ((10 : ℚ) ^ K) ≤ ((⌊(v.toQ)⁻¹⌋₊ : ℕ) : ℚ) := by exact_mod_cast hlo
      _ ≤ (v.toQ)⁻¹ := hfl
  have hKhi : (v.toQ)⁻¹ < (10 : ℚ) ^ (K + 1) := by
    have hstep : ((⌊(v.toQ)⁻¹⌋₊ : ℕ) : ℚ) + 1 ≤ (10 : ℚ) ^ (K + 1) := by
      exact_mod_cast Nat.succ_le_of_lt hhi
    linarith
  have hvinv : v.toQ = ((v.toQ)⁻¹)⁻¹ := (inv_inv _).symm
  refine ⟨neg_nonpos.mpr (Int.natCast_nonneg K), ?_, ?_⟩
  · have h2 : ((10 : ℚ) ^ (K + 1))⁻¹ < ((v.toQ)⁻¹)⁻¹ :=
      (inv_lt_inv₀ (by positivity) (by positivity)).mpr hKhi
    rw [← hvinv] at h2
    have hz : (10 : ℚ) ^ (-(K : ℤ) - 1) = ((10 : ℚ) ^ (K + 1))⁻¹ := by
      rw [show -(K : ℤ) - 1 = -((K : ℤ) + 1) by ring, zpow_neg]
      congr 1
      rw [show (K : ℤ) + 1 = ((K + 1 : ℕ) : ℤ) by push_cast; ring, zpow_natCast]
    rw [hz]
    exact h2
  · have h2 : ((v.toQ)⁻¹)⁻¹ ≤ ((10 : ℚ) ^ K)⁻¹ := inv_anti₀ (by positivity) hKlo
    rw [← hvinv] at h2
    have hz : (10 : ℚ) ^ (-(K : ℤ)) = ((10 : ℚ) ^ K)⁻¹ := by
      rw [zpow_neg, zpow_natCast]
    rw [hz]
    exact h2

theorem ten_zpow_split (a b : ℤ) : (10 : ℚ) ^ (a + b) = 10 ^ a * 10 ^ b :=
  zpow_add₀ (by norm_num) a b

theorem siExp_def (v : PyF) : siExp v =
    if 0 < intLog10 v then (((intLog10 v).toNat / 3 * 3 : ℕ) : ℤ)
    else -((((-(intLog10 v)).toNat + 3) / 3 * 3 : ℕ) : ℤ) := rfl

theorem siExp_dvd3 (v : PyF) : 3 ∣ siExp v := by
  rw [siExp_def]
  split
  · exact ⟨(((intLog10 v).toNat / 3 : ℕ) : ℤ), by push_cast; ring⟩
  · exact ⟨-((((-(intLog10 v)).toNat + 3) / 3 : ℕ) : ℤ), by push_cast; ring⟩

theorem siExp_mantissa_bounds {v : PyF} (hv : 0 < v.toQ) :
    1 ≤ v.toQ * (10 : ℚ) ^ (-(siExp v)) ∧ v.toQ * (10 : ℚ) ^ (-(siExp v)) < 10000 := by
  by_cases h1 : 1 ≤ v.toQ
  · obtain ⟨he0, hlo, hhi⟩ := intLog10_spec_ge_one h1
    rw [siExp_def]
    by_cases hpos : 0 < intLog10 v
    · rw [if_pos hpos]
      have htv : (((intLog10 v).toNat : ℕ) : ℤ) = intLog10 v := Int.toNat_of_nonneg he0
      set e : ℤ := (((intLog10 v).toNat / 3 * 3 : ℕ) : ℤ) with he
      have hee : e ≤ intLog10 v ∧ intLog10 v ≤ e + 2 ∧ 0 ≤ e := by omega
      constructor
      · calc (1 : ℚ) = 10 ^ (0 : ℤ) := by norm_num
          _ ≤ 10 ^ (intLog10 v + -e) := ten_zpow_le (by omega)
          _ = 10 ^ intLog10 v * 10 ^ (-e) := ten_zpow_split _ _
          _ ≤ v.toQ * 10 ^ (-e) :=
            mul_le_mul_of_nonneg_right hlo (zero_lt_ten_zpow _).le
      · calc v.toQ * 10 ^ (-e) < 10 ^ (intLog10 v + 1) * 10 ^ (-e) :=
            mul_lt_mul_of_pos_right hhi (zero_lt_ten_zpow _)
          _ = 10 ^ (intLog10 v + 1 + -e) := (ten_zpow_split _ _).symm
          _ ≤ 10 ^ (3 : ℤ) := ten_zpow_le (by omega)
          _ < 10000 := by norm_num
    · rw [if_neg hpos]
      have he00 : intLog10 v = 0 := le_antisymm (not_lt.mp hpos) he0
      rw [he00] at hlo hhi ⊢
      norm_num at hlo hhi ⊢
      constructor
      · nlinarith [hlo]
      · nlinarith [hhi]
  · push_neg at h1
    obtain ⟨he0, hlo, hhi⟩ := intLog10_spec_lt_one hv h1
    rw [siExp_def, if_neg (not_lt.mpr he0)]
    have hkv : (((-(intLog10 v)).toNat : ℕ) : ℤ) = -(intLog10 v) :=
      Int.toNat_of_nonneg (by omega)
    set e : ℤ := -((((-(intLog10 v)).toNat + 3) / 3 * 3 : ℕ) : ℤ) with he
    have hee : intLog10 v + -e ≤ 3 ∧ 1 ≤ intLog10 v - 1 + -e + 1 := by omega
    constructor
    · have h2 : (10 : ℚ) ^ (intLog10 v - 1 + -e) < v.toQ * 10 ^ (-e) := by
        rw [ten_zpow_split]
        exact mul_lt_mul_of_pos_right hlo (zero_lt_ten_zpow _)
      have h3 : (1 : ℚ) = 10 ^ (0 : ℤ) := by norm_num
      have h4 : (10 : ℚ) ^ (0 : ℤ) ≤ 10 ^ (intLog10 v - 1 + -e) := ten_zpow_le (by omega)
      linarith
    · have h2 : v.toQ * 10 ^ (-e) ≤ 10 ^ (intLog10 v + -e) := by
        rw [ten_zpow_split]
        exact mul_le_mul_of_nonneg_right hhi (zero_lt_ten_zpow _).le
      have h3 : (10 : ℚ) ^ (intLog10 v + -e) ≤ 10 ^ (3 : ℤ) := ten_zpow_le (by omega)
      have h4 : ((10 : ℚ) ^ (3 : ℤ)) < 10000 := by norm_num
      linarith

theorem siSplit_def (v : PyF) : siSplit v =
    if PyF.ofInt 1000 ≤ v.mul (PyF.pow10 (-(siExp v)))
    then ((v.mul (PyF.pow10 (-(siExp v)))).mul (PyF.pow10 (-3)), siExp v + 3)
    else (v.mul (PyF.pow10 (-(siExp v))), siExp v) := rfl

theorem siSplit_spec {v : PyF} (hv : 0 < v.toQ) :
    1 ≤ (siSplit v).1.toQ ∧ (siSplit v).1.toQ < 1000 ∧
      (siSplit v).1.toQ * (10 : ℚ) ^ (siSplit v).2 = v.toQ ∧ 3 ∣ (siSplit v).2 := by
  obtain ⟨hm1, hm2⟩ := siExp_mantissa_bounds hv
  have hmQ : (v.mul (PyF.pow10 (-(siExp v)))).toQ = v.toQ * 10 ^ (-(siExp v)) := by
    rw [PyF.toQ_mul, PyF.toQ_pow10]
  have hdvd := siExp_dvd3 v
  have hprod : ∀ x : ℤ, v.toQ * 10 ^ (-(siExp v)) * 10 ^ x * 10 ^ (siExp v - x) = v.toQ := by
    intro x
    rw [mul_assoc, mul_assoc, ← ten_zpow_split, ← ten_zpow_split]
    have : -(siExp v) + (x + (siExp v - x)) = 0 := by ring
    rw [this]
    norm_num
  rw [siSplit_def]
  by_cases hb : PyF.ofInt 1000 ≤ v.mul (PyF.pow10 (-(siExp v)))
  · rw [if_pos hb]
    have hb' : (1000 : ℚ) ≤ v.toQ * 10 ^ (-(siExp v)) := by
      have h := (PyF.le_iff _ _).mp hb
      rw [PyF.toQ_ofInt, hmQ] at h
      exact_mod_cast h
    have hQ : ((v.mul (PyF.pow10 (-(siExp v)))).mul (PyF.pow10 (-3))).toQ =
        v.toQ * 10 ^ (-(siExp v)) * 10 ^ (-3 : ℤ) := by
      rw [PyF.toQ_mul, PyF.toQ_pow10, hmQ]
    refine ⟨?_, ?_, ?_, ?_⟩
    · show (1 : ℚ) ≤ _
      rw [hQ]
      have : (10 : ℚ) ^ (-3 : ℤ) = 1 / 1000 := by norm_num
      rw [this]
      linarith
    · show _ < (1000 : ℚ)
      rw [hQ]
      have : (10 : ℚ) ^ (-3 : ℤ) = 1 / 1000 := by norm_num
      rw [this]
      linarith
    · show _ * _ = v.toQ
      rw [hQ]
      have := hprod (-3)
      have harg : siExp v - -3 = siExp v + 3 := by ring
      rw [harg] at this
      exact this
    · show 3 ∣ siExp v + 3
      omega
  · rw [if_neg hb]
    have hb' : v.toQ * 10 ^ (-(siExp v)) < 1000 := by
      by_contra hge
      push_neg at hge
      exact hb ((PyF.le_iff _ _).mpr (by rw [PyF.toQ_ofInt, hmQ]; exact_mod_cast hge))
    refine ⟨?_, ?_, ?_, ?_⟩
    · show (1 : ℚ) ≤ _
      rw [hmQ]
      exact hm1
    · show _ < (1000 : ℚ)
      rw [hmQ]
      exact hb'
    · show _ * _ = v.toQ
      rw [hmQ]
      have := hprod 0
      simp only [zpow_zero, mul_one, sub_zero] at this
      exact this
    · exact hdvd

theorem round100_spec {m : PyF} (h1 : 1 ≤ m.toQ) :
    100 ≤ round100 m ∧ |((round100 m : ℕ) : ℚ) / 100 - m.toQ| ≤ 1 / 200 := by
  have hnum : 0 < m.num := (PyF.num_pos_iff m).mp (by linarith)
  have hD : 0 < 2 * m.den := by have := m.dpos; omega
  have key : ((round100 m : ℕ) : ℚ) = ((⌊(100 : ℚ) * m.toQ + 1 / 2⌋ : ℤ) : ℚ) := by
    have h1' : round100 m = ⌊(pyf (200 * m.num + m.den) (2 * m.den) hD).toQ⌋₊ :=
      pyfFloorNat_eq (pyf (200 * m.num + m.den) (2 * m.den) hD)
    have hexpr : (pyf (200 * m.num + m.den) (2 * m.den) hD).toQ = 100 * m.toQ + 1 / 2 := by
      show ((200 * m.num + m.den : ℤ) : ℚ) / ((2 * m.den : ℤ) : ℚ) = _
      rw [PyF.toQ]
      have hd := PyF.den_q_ne m
      have hd2 : ((2 * m.den : ℤ) : ℚ) ≠ 0 := by push_cast; intro h; apply hd; linarith
      field_simp
      ring
    rw [h1', hexpr]
    exact_mod_cast Int.natCast_floor_eq_floor
      (show (0 : ℚ) ≤ 100 * m.toQ + 1 / 2 by linarith)
  have hround : ((⌊(100 : ℚ) * m.toQ + 1 / 2⌋ : ℤ) : ℚ) = ((round ((100 : ℚ) * m.toQ) : ℤ) : ℚ) := by
    rw [round_eq]
  have habs := abs_sub_round ((100 : ℚ) * m.toQ)
  have hnear : |((round100 m : ℕ) : ℚ) - 100 * m.toQ| ≤ 1 / 2 := by
    rw [key, hround, abs_sub_comm]
    exact habs
  constructor
  · by_contra hlt
    push_neg at hlt
    have hcast : ((round100 m : ℕ) : ℚ) ≤ 99 := by exact_mod_cast (by omega : round100 m ≤ 99)
    have := abs_le.mp hnear
    linarith
  · have heq : ((round100 m : ℕ) : ℚ) / 100 - m.toQ =
        (((round100 m : ℕ) : ℚ) - 100 * m.toQ) / 100 := by ring
    rw [heq, abs_div]
    have : |(100 : ℚ)| = 100 := by norm_num
    rw [this]
    linarith

/-! ### Assembling the codec round trip -/

theorem siSplitSigned_pos {v : PyF} (hv : 0 < v.toQ) : siSplitSigned v = siSplit v := by
  unfold siSplitSigned
  rw [if_pos ((PyF.le_iff _ _).mpr (by rw [PyF.toQ_ofInt]; exact_mod_cast hv.le)),
    if_neg (fun h => absurd ((PyF.le_iff _ _).mp h)
      (by rw [PyF.toQ_ofInt]; exact not_le.mpr (by exact_mod_cast hv)))]

theorem float_to_si_def (v : PyF) : float_to_si v =
    muToU ((if (siSplitSigned v).1 < PyF.ofInt 0
      then "-" ++ String.mk (renderCenti (round100 (-(siSplitSigned v).1)))
      else String.mk (renderCenti (round100 (siSplitSigned v).1))) ++
      siPrefixRaw (siSplitSigned v).2) := rfl

theorem si_to_float_def (s : String) : si_to_float s =
    match (rstripAll ['Ω', 'F', 'H', 'A', 'V', 'W', 'z']
        (s.data.map (fun c => if c = 'u' then 'µ' else c))).getLast? with
    | none => none
    | some c =>
      match siPrefixLevel c with
      | some lv =>
        (parseSigned (rstripAll ['Ω', 'F', 'H', 'A', 'V', 'W', 'z']
          (s.data.map (fun c => if c = 'u' then 'µ' else c))).dropLast).map
          (fun w => w.mul (PyF.pow10 (3 * lv)))
      | none =>
        parseSigned (rstripAll ['Ω', 'F', 'H', 'A', 'V', 'W', 'z']
          (s.data.map (fun c => if c = 'u' then 'µ' else c))) := rfl

theorem body_map_mu {l : List Char} (h : ∀ c ∈ l, isDigitB c = true ∨ c = '.' ∨ c = '-') :
    l.map (fun c => if c = 'µ' then 'u' else c) = l := by
  have := List.map_congr_left (l := l) (f := fun c => if c = 'µ' then 'u' else c) (g := id)
    (fun c hc => by
      rcases h c hc with hd | hd | hd
      · obtain ⟨hb1, hb2⟩ := digit_toNat_bounds hd
        have hne : c ≠ 'µ' := ne_of_toNat_ne (by
          have : ('µ').toNat = 181 := rfl
          omega)
        simp [hne]
      · subst hd; decide
      · subst hd; decide)
  simpa using this

theorem body_map_u {l : List Char} (h : ∀ c ∈ l, isDigitB c = true ∨ c = '.' ∨ c = '-') :
    l.map (fun c => if c = 'u' then 'µ' else c) = l := by
  have := List.map_congr_left (l := l) (f := fun c => if c = 'u' then 'µ' else c) (g := id)
    (fun c hc => by
      rcases h c hc with hd | hd | hd
      · obtain ⟨hb1, hb2⟩ := digit_toNat_bounds hd
        have hne : c ≠ 'u' := ne_of_toNat_ne (by
          have : ('u').toNat = 117 := rfl
          omega)
        simp [hne]
      · subst hd; decide
      · subst hd; decide)
  simpa using this

theorem si_to_float_nosuffix {body : List Char} {w0 : PyF}
    (hchars : ∀ c ∈ body, isDigitB c = true ∨ c = '.' ∨ c = '-')
    (hconcat : ∃ l d, body = l ++ [d] ∧ isDigitB d = true)
    (hparse : parseSigned body = some w0) :
    si_to_float (String.mk body) = some w0 := by
  obtain ⟨l, d, hld, hd⟩ := hconcat
  rw [si_to_float_def]
  show (match (rstripAll _ ((String.mk body).data.map _)).getLast? with
    | none => none
    | some c => _) = _
  have hdata : (String.mk body).data = body := rfl
  rw [hdata, body_map_u hchars,
    rstripAll_digits_last ⟨l, d, hld, hd⟩ (fun c hc => units_keep_digit hc), hld,
    List.getLast?_concat]
  show (match siPrefixLevel d with | some lv => _ | none => _) = _
  rw [siPrefixLevel_digit hd]
  rw [← hld]
  exact hparse

theorem si_to_float_suffix {body : List Char} {w0 : PyF} {pm pr : Char} {lv : ℤ}
    (hchars : ∀ c ∈ body, isDigitB c = true ∨ c = '.' ∨ c = '-')
    (hparse : parseSigned body = some w0)
    (hmapc : (if pm = 'u' then 'µ' else pm) = pr)
    (hunit : (['Ω', 'F', 'H', 'A', 'V', 'W', 'z'].contains pr) = false)
    (hlv : siPrefixLevel pr = some lv) :
    si_to_float (String.mk (body ++ [pm])) = some (w0.mul (PyF.pow10 (3 * lv))) := by
  rw [si_to_float_def]
  have hdata : (String.mk (body ++ [pm])).data = body ++ [pm] := rfl
  have hmap : (body ++ [pm]).map (fun c => if c = 'u' then 'µ' else c) = body ++ [pr] := by
    rw [List.map_append, body_map_u hchars]
    show body ++ [if pm = 'u' then 'µ' else pm] = _
    rw [hmapc]
  rw [hdata, hmap, rstripAll_last_keep hunit, List.getLast?_concat]
  show (match siPrefixLevel pr with | some lv => _ | none => _) = _
  rw [hlv]
  show (parseSigned (body ++ [pr]).dropLast).map _ = _
  rw [List.dropLast_concat, hparse]
  rfl

theorem si_parse_format_core {body : List Char} {w0 : PyF} {e : ℤ}
    (hchars : ∀ c ∈ body, isDigitB c = true ∨ c = '.' ∨ c = '-')
    (hconcat : ∃ l d, body = l ++ [d] ∧ isDigitB d = true)
    (hparse : parseSigned body = some w0)
    (hlo : -15 ≤ e) (hhi : e ≤ 9) (hdvd : 3 ∣ e) :
    ∃ w : PyF, si_to_float (muToU (String.mk body ++ siPrefixRaw e)) = some w ∧
      w.toQ = w0.toQ * (10 : ℚ) ^ e := by
  have hmu : ∀ ps : String, muToU (String.mk body ++ ps) =
      String.mk (body ++ ps.data.map (fun c => if c = 'µ' then 'u' else c)) := by
    intro ps
    show String.mk (((String.mk body ++ ps).data).map _) = _
    rw [String.data_append]
    have : (String.mk body).data = body := rfl
    rw [this, List.map_append, body_map_mu hchars]
  have hE : e = -15 ∨ e = -12 ∨ e = -9 ∨ e = -6 ∨ e = -3 ∨ e = 0 ∨ e = 3 ∨ e = 6 ∨ e = 9 := by
    omega
  rcases hE with hE | hE | hE | hE | hE | hE | hE | hE | hE <;> subst hE
  · exact ⟨_, by
      rw [hmu]
      exact @si_to_float_suffix _ _ 'f' 'f' (-5) hchars hparse rfl
        (by decide) (by decide),
      by rw [PyF.toQ_mul, PyF.toQ_pow10]; norm_num⟩
  · exact ⟨_, by
      rw [hmu]
      exact @si_to_float_suffix _ _ 'p' 'p' (-4) hchars hparse rfl
        (by decide) (by decide),
      by rw [PyF.toQ_mul, PyF.toQ_pow10]; norm_num⟩
  · exact ⟨_, by
      rw [hmu]
      exact @si_to_float_suffix _ _ 'n' 'n' (-3) hchars hparse rfl
        (by decide) (by decide),
      by rw [PyF.toQ_mul, PyF.toQ_pow10]; norm_num⟩
  · exact ⟨_, by
      rw [hmu]
      exact @si_to_float_suffix _ _ 'u' 'µ' (-2) hchars hparse rfl
        (by decide) (by decide),
      by rw [PyF.toQ_mul, PyF.toQ_pow10]; norm_num⟩
  · exact ⟨_, by
      rw [hmu]
      exact @si_to_float_suffix _ _ 'm' 'm' (-1) hchars hparse rfl
        (by decide) (by decide),
      by rw [PyF.toQ_mul, PyF.toQ_pow10]; norm_num⟩
  · refine ⟨w0, ?_, ?_⟩
    · rw [hmu]
      have hnil : body ++ (siPrefixRaw 0).data.map (fun c => if c = 'µ' then 'u' else c) =
          body := by
        have hps : siPrefixRaw 0 = "" := rfl
        rw [hps]
        simp
      rw [hnil]
      exact si_to_float_nosuffix hchars hconcat hparse
    · norm_num
  · exact ⟨_, by
      rw [hmu]
      exact @si_to_float_suffix _ _ 'k' 'k' (1) hchars hparse rfl
        (by decide) (by decide),
      by rw [PyF.toQ_mul, PyF.toQ_pow10]; norm_num⟩
  · exact ⟨_, by
      rw [hmu]
      exact @si_to_float_suffix _ _ 'M' 'M' (2) hchars hparse rfl
        (by decide) (by decide),
      by rw [PyF.toQ_mul, PyF.toQ_pow10]; norm_num⟩
  · exact ⟨_, by
      rw [hmu]
      exact @si_to_float_suffix _ _ 'G' 'G' (3) hchars hparse rfl
        (by decide) (by decide),
      by rw [PyF.toQ_mul, PyF.toQ_pow10]; norm_num⟩

theorem siSplit_exp_range {v : PyF} (hv : 0 < v.toQ)
    (hlo : 1 / 10 ^ 15 ≤ v.toQ) (hhi : v.toQ ≤ 10 ^ 9) :
    -15 ≤ (siSplit v).2 ∧ (siSplit v).2 ≤ 9 := by
  obtain ⟨hm1, hmlt, hmprod, hdvd⟩ := siSplit_spec hv
  constructor
  · by_contra h
    push_neg at h
    have he3 : (siSplit v).2 + 3 ≤ -15 := by omega
    have h1 : v.toQ < 10 ^ ((siSplit v).2 + 3) := by
      calc v.toQ = (siSplit v).1.toQ * 10 ^ (siSplit v).2 := hmprod.symm
        _ < 1000 * 10 ^ (siSplit v).2 :=
          mul_lt_mul_of_pos_right hmlt (zero_lt_ten_zpow _)
        _ = 10 ^ ((siSplit v).2 + 3) := by
          rw [ten_zpow_split]
          have h3 : (10 : ℚ) ^ (3 : ℤ) = 1000 := by norm_num
          rw [h3]
          ring
    have h2 : (10 : ℚ) ^ ((siSplit v).2 + 3) ≤ 10 ^ (-15 : ℤ) := ten_zpow_le he3
    have h3 : (10 : ℚ) ^ (-15 : ℤ) = 1 / 10 ^ (15 : ℕ) := by norm_num
    have h4 : (10 : ℚ) ^ (-15 : ℤ) ≤ v.toQ := by rw [h3]; exact hlo
    exact lt_irrefl _ ((h1.trans_le h2).trans_le h4)
  · by_contra h
    push_neg at h
    have h1 : (10 : ℚ) ^ (10 : ℤ) ≤ 10 ^ (siSplit v).2 := ten_zpow_le (by omega)
    have h2 : (10 : ℚ) ^ (siSplit v).2 ≤ v.toQ := by
      calc (10 : ℚ) ^ (siSplit v).2 = 1 * 10 ^ (siSplit v).2 := (one_mul _).symm
        _ ≤ (siSplit v).1.toQ * 10 ^ (siSplit v).2 :=
          mul_le_mul_of_nonneg_right hm1 (zero_lt_ten_zpow _).le
        _ = v.toQ := hmprod
    have h3 : (10 : ℚ) ^ (10 : ℤ) = 10000000000 := by norm_num
    have h4 : (10 : ℚ) ^ (9 : ℕ) = 1000000000 := by norm_num
    rw [h3] at h1
    rw [h4] at hhi
    linarith

theorem si_roundtrip_pos {v : PyF} (hv : 0 < v.toQ)
    (hlo : 1 / 10 ^ 15 ≤ v.toQ) (hhi : v.toQ ≤ 10 ^ 9) :
    ∃ w : PyF, si_to_float (float_to_si v) = some w ∧ |w.toQ - v.toQ| ≤ v.toQ / 100 := by
  obtain ⟨hm1, hmlt, hmprod, hdvd⟩ := siSplit_spec hv
  obtain ⟨helo, hehi⟩ := siSplit_exp_range hv hlo hhi
  obtain ⟨hn100, hnear⟩ := round100_spec hm1
  obtain ⟨⟨w0, hw0, hw0q⟩, hchars, hconcat⟩ := renderCenti_spec hn100
  have hchars3 : ∀ c ∈ renderCenti (round100 (siSplit v).1),
      isDigitB c = true ∨ c = '.' ∨ c = '-' :=
    fun c hc => (hchars c hc).imp_right Or.inl
  have hnotneg : ¬((siSplit v).1 < PyF.ofInt 0) := by
    rw [PyF.lt_iff, PyF.toQ_ofInt]
    push_cast
    exact not_lt.mpr (by linarith)
  have hfts : float_to_si v =
      muToU (String.mk (renderCenti (round100 (siSplit v).1)) ++
        siPrefixRaw (siSplit v).2) := by
    rw [float_to_si_def, siSplitSigned_pos hv, if_neg hnotneg]
  clear hnotneg
  obtain ⟨w, hw, hwq⟩ := si_parse_format_core hchars3 hconcat hw0 helo hehi hdvd
  refine ⟨w, by rw [hfts]; exact hw, ?_⟩
  rw [hwq, hw0q, ← hmprod]
  have h10 : (0 : ℚ) < 10 ^ (siSplit v).2 := zero_lt_ten_zpow _
  have key : |((round100 (siSplit v).1 : ℕ) : ℚ) / 100 * 10 ^ (siSplit v).2 -
      (siSplit v).1.toQ * 10 ^ (siSplit v).2| =
      |((round100 (siSplit v).1 : ℕ) : ℚ) / 100 - (siSplit v).1.toQ| * 10 ^ (siSplit v).2 := by
    rw [← sub_mul, abs_mul, abs_of_pos h10]
  rw [key]
  calc |((round100 (siSplit v).1 : ℕ) : ℚ) / 100 - (siSplit v).1.toQ| * 10 ^ (siSplit v).2
      ≤ (1 / 200) * 10 ^ (siSplit v).2 := mul_le_mul_of_nonneg_right hnear h10.le
    _ ≤ ((siSplit v).1.toQ / 100) * 10 ^ (siSplit v).2 :=
        mul_le_mul_of_nonneg_right (by linarith) h10.le
    _ = (siSplit v).1.toQ * 10 ^ (siSplit v).2 / 100 := by ring

theorem round100_negneg (m : PyF) : round100 (PyF.neg (PyF.neg m)) = round100 m := by
  unfold round100 PyF.neg
  simp

theorem siSplitSigned_neg {v : PyF} (hv : v.toQ < 0) :
    siSplitSigned v = (PyF.neg (siSplit (-v)).1, (siSplit (-v)).2) := by
  unfold siSplitSigned
  rw [if_neg (fun h => absurd ((PyF.le_iff _ _).mp h)
    (by rw [PyF.toQ_ofInt]; exact not_le.mpr (by exact_mod_cast hv)))]
  rfl

theorem si_roundtrip_neg {v : PyF} (hv : v.toQ < 0)
    (hlo : 1 / 10 ^ 15 ≤ -v.toQ) (hhi : -v.toQ ≤ 10 ^ 9) :
    ∃ w : PyF, si_to_float (float_to_si v) = some w ∧ |w.toQ - v.toQ| ≤ -v.toQ / 100 := by
  have hvq : (-v : PyF).toQ = -v.toQ := PyF.toQ_neg v
  have hvpos : 0 < (-v : PyF).toQ := by rw [hvq]; linarith
  obtain ⟨hm1, hmlt, hmprod, hdvd⟩ := siSplit_spec hvpos
  obtain ⟨helo, hehi⟩ := siSplit_exp_range hvpos (by rw [hvq]; exact hlo) (by rw [hvq]; exact hhi)
  obtain ⟨hn100, hnear⟩ := round100_spec hm1
  obtain ⟨⟨w0, hw0, hw0q⟩, hchars, hconcat⟩ := renderCenti_spec hn100
  obtain ⟨ld, dd, hld, hdd⟩ := hconcat
  have hisneg : (PyF.neg (siSplit (-v)).1) < PyF.ofInt 0 := by
    rw [PyF.lt_iff, PyF.toQ_neg, PyF.toQ_ofInt]
    push_cast
    linarith
  have hfts : float_to_si v =
      muToU (String.mk ('-' :: renderCenti (round100 (siSplit (-v)).1)) ++
        siPrefixRaw (siSplit (-v)).2) := by
    rw [float_to_si_def, siSplitSigned_neg hv]
    show muToU ((if PyF.neg (siSplit (-v)).1 < PyF.ofInt 0
      then "-" ++ String.mk (renderCenti (round100 (-PyF.neg (siSplit (-v)).1)))
      else _) ++ _) = _
    rw [if_pos hisneg]
    show muToU (("-" ++ String.mk (renderCenti (round100 (PyF.neg (PyF.neg (siSplit (-v)).1))))) ++ _) = _
    rw [round100_negneg]
    rfl
  have hchars3 : ∀ c ∈ '-' :: renderCenti (round100 (siSplit (-v)).1),
      isDigitB c = true ∨ c = '.' ∨ c = '-' := by
    intro c hc
    rcases List.mem_cons.mp hc with hc | hc
    · exact Or.inr (Or.inr hc)
    · exact (hchars c hc).imp_right Or.inl
  have hconcat' : ∃ l d, '-' :: renderCenti (round100 (siSplit (-v)).1) = l ++ [d] ∧
      isDigitB d = true := ⟨'-' :: ld, dd, by rw [hld]; rfl, hdd⟩
  have hparse' : parseSigned ('-' :: renderCenti (round100 (siSplit (-v)).1)) =
      some (PyF.neg w0) := by
    show (if ('-' : Char) = '-' then
      (parseDecimal (renderCenti (round100 (siSplit (-v)).1))).map PyF.neg
      else parseDecimal ('-' :: renderCenti (round100 (siSplit (-v)).1))) =
      some (PyF.neg w0)
    rw [if_pos rfl]
    have hdec : parseDecimal (renderCenti (round100 (siSplit (-v)).1)) = some w0 := by
      rw [← parseSigned_no_minus (by rw [hld]; simp)
        (fun c hc => by
          rcases hchars c hc with hd | hd
          · exact digit_ne_minus hd
          · subst hd; decide)]
      exact hw0
    rw [hdec]
    rfl
  obtain ⟨w, hw, hwq⟩ := si_parse_format_core hchars3 hconcat' hparse' helo hehi hdvd
  refine ⟨w, by rw [hfts]; exact hw, ?_⟩
  rw [hwq, PyF.toQ_neg, hw0q]
  have hvv : v.toQ = -((siSplit (-v)).1.toQ * 10 ^ (siSplit (-v)).2) := by
    rw [hmprod, hvq]
    ring
  rw [hvv]
  have h10 : (0 : ℚ) < 10 ^ (siSplit (-v)).2 := zero_lt_ten_zpow _
  have key : |-(((round100 (siSplit (-v)).1 : ℕ) : ℚ) / 100) * 10 ^ (siSplit (-v)).2 -
      -((siSplit (-v)).1.toQ * 10 ^ (siSplit (-v)).2)| =
      |((round100 (siSplit (-v)).1 : ℕ) : ℚ) / 100 - (siSplit (-v)).1.toQ| *
        10 ^ (siSplit (-v)).2 := by
    rw [show -(((round100 (siSplit (-v)).1 : ℕ) : ℚ) / 100) * 10 ^ (siSplit (-v)).2 -
      -((siSplit (-v)).1.toQ * 10 ^ (siSplit (-v)).2) =
      -((((round100 (siSplit (-v)).1 : ℕ) : ℚ) / 100 - (siSplit (-v)).1.toQ) *
        10 ^ (siSplit (-v)).2) by ring, abs_neg, abs_mul, abs_of_pos h10]
  rw [key]
  have hgoal : -(-((siSplit (-v)).1.toQ * 10 ^ (siSplit (-v)).2)) / 100 =
      (siSplit (-v)).1.toQ * 10 ^ (siSplit (-v)).2 / 100 := by ring
  rw [hgoal]
  calc |((round100 (siSplit (-v)).1 : ℕ) : ℚ) / 100 - (siSplit (-v)).1.toQ| *
      10 ^ (siSplit (-v)).2
      ≤ (1 / 200) * 10 ^ (siSplit (-v)).2 := mul_le_mul_of_nonneg_right hnear h10.le
    _ ≤ ((siSplit (-v)).1.toQ / 100) * 10 ^ (siSplit (-v)).2 :=
        mul_le_mul_of_nonneg_right (by linarith) h10.le
    _ = (siSplit (-v)).1.toQ * 10 ^ (siSplit (-v)).2 / 100 := by ring

theorem float_to_si_no_mu (v : PyF) : 'µ' ∉ (float_to_si v).data := by
  intro h
  have hdata : (float_to_si v).data =
      (((if (siSplitSigned v).1 < PyF.ofInt 0
        then "-" ++ String.mk (renderCenti (round100 (-(siSplitSigned v).1)))
        else String.mk (renderCenti (round100 (siSplitSigned v).1))) ++
        siPrefixRaw (siSplitSigned v).2).data).map (fun c => if c = 'µ' then 'u' else c) := by
    rw [float_to_si_def]
    rfl
  rw [hdata, List.mem_map] at h
  obtain ⟨c, _, hc⟩ := h
  by_cases hcu : c = 'µ'
  · rw [if_pos hcu] at hc
    exact absurd hc (by decide)
  · rw [if_neg hcu] at hc
    exact hcu hc

/-- C6: for every finite nonzero value `v` with `1e-15 ≤ |v| ≤ 1e9`, parsing
the formatted token recovers `v` to within 1 percent relative error
(`|parse(format v) - v| ≤ |v| / 100`), and the formatted token never contains
the character `µ`. -/
theorem c6_unit_codec_roundtrip (v : PyF) (h0 : v.toQ ≠ 0)
    (hlo : 1 / 10 ^ 15 ≤ |v.toQ|) (hhi : |v.toQ| ≤ 10 ^ 9) :
    ∃ w : PyF, si_to_float (float_to_si v) = some w ∧
      |w.toQ - v.toQ| ≤ |v.toQ| / 100 ∧ 'µ' ∉ (float_to_si v).data := by
  rcases lt_or_gt_of_ne h0 with hneg | hpos
  · obtain ⟨w, hw, hb⟩ := si_roundtrip_neg hneg (by rwa [abs_of_neg hneg] at hlo)
      (by rwa [abs_of_neg hneg] at hhi)
    exact ⟨w, hw, by rwa [abs_of_neg hneg], float_to_si_no_mu v⟩
  · obtain ⟨w, hw, hb⟩ := si_roundtrip_pos hpos (by rwa [abs_of_pos hpos] at hlo)
      (by rwa [abs_of_pos hpos] at hhi)
    exact ⟨w, hw, by rwa [abs_of_pos hpos], float_to_si_no_mu v⟩

/-- Witness for C6 at the concrete value 2000 (formatted as `"2k"`). -/
theorem c6_unit_codec_roundtrip_witness :
    (pyf 2000 1 one_pos).toQ ≠ 0 ∧
    ∃ w : PyF, si_to_float (float_to_si (pyf 2000 1 one_pos)) = some w ∧
      |w.toQ - (pyf 2000 1 one_pos).toQ| ≤ |(pyf 2000 1 one_pos).toQ| / 100 ∧
      'µ' ∉ (float_to_si (pyf 2000 1 one_pos)).data :=
  ⟨by norm_num [PyF.toQ, pyf],
   c6_unit_codec_roundtrip (pyf 2000 1 one_pos) (by norm_num [PyF.toQ, pyf])
     (by norm_num [PyF.toQ, pyf]) (by norm_num [PyF.toQ, pyf])⟩

/-! ### Claims about the ranking and filtering pipeline -/

/-- C1: the spec scenario — a single catalog candidate whose `"Rated Current"`
attribute does not parse is removed by the attribute filter, and running the
Ranker (`sort_by_basic_price`) on the resulting empty candidate list raises
`IndexError` (from `self.results[0]`), which is a low-level crash, not the
`LookupError`/NotFound signalling the spec requires. -/
theorem c1_empty_ranker_raises_index_error :
    filter_results_by_extra_json_attributes "Rated Current"
      (Param.constant (pyf 1 1 one_pos)) (fun x => x)
      [{ lcsc_pn := 1, manufacturer_pn := "X", basic := 1,
         price := PriceField.json [⟨some 10, pyf 1 1 one_pos⟩],
         extra := some [("Rated Current", "garbage")], description := "L" }] = [] ∧
    sort_by_basic_price 1 [] = Except.error PyError.indexError ∧
    PyError.indexError ≠ PyError.lookupError :=
  ⟨rfl, rfl, by decide⟩

/-- C2: the capacitor tolerance builder at tolerance `Exact(10)` percent and
capacitance `Exact(1e-9)` accepts no label at all, although the `"10%"` label's
absolute deviation (`0.10 * v`) satisfies the claimed ceiling
(`<= 10/100 * v`): the `Constant` branch sets `min = max = 10` and additionally
requires the deviation to be strictly greater than `10/100 * v`, which is
unsatisfiable. -/
theorem c2_exact_tolerance_accepts_nothing :
    accepted_capacitor_tolerances (pyf 1 (10 ^ 9) (by norm_num)) (pyf 10 1 one_pos)
      (pyf 10 1 one_pos) = [] ∧
    (pyf 10 100 (by norm_num)).mul (pyf 1 (10 ^ 9) (by norm_num)) ≤
      ((pyf 10 1 one_pos).div (PyF.ofInt 100)).mul (pyf 1 (10 ^ 9) (by norm_num)) :=
  ⟨rfl, by decide⟩

/-- C3: when zero tolerance labels qualify (here: capacitance `Exact(1e-9)`,
tolerance `Exact(10)` percent), the emitted tolerance predicate is the literal
empty-parenthesis string `"()"` — not an always-false SQL clause. -/
theorem c3_zero_labels_emit_empty_parens :
    build_capacitor_tolerance_query (Param.constant (pyf 1 (10 ^ 9) (by norm_num)))
      (Param.constant (pyf 10 1 one_pos)) = Except.ok "()" := rfl

/-- C4: price-tier evaluation of `sort_by_basic_price` on the spec's example
tiers `[{max_qty: 10, price: 1.0}, {max_qty: null, price: 0.8}]`: quantity 5
selects price 1.0 via the first tier, but quantity 50 raises `TypeError`
(Python evaluates `50 <= None` before the `== "null"` test) instead of
selecting the unbounded tier's 0.8; and with two candidates the survivor list
is sorted by (basic descending, price ascending). -/
theorem c4_price_tier_eval :
    sort_by_basic_price 5
      [{ lcsc_pn := 7, manufacturer_pn := "P", basic := 1,
         price := PriceField.json [⟨some 10, pyf 1 1 one_pos⟩, ⟨none, pyf 4 5 (by norm_num)⟩],
         extra := none, description := "d" }] =
      Except.ok
        ({ lcsc_pn := 7, manufacturer_pn := "P", basic := 1,
           price := PriceField.flt (pyf 1 1 one_pos), extra := none, description := "d" },
         [{ lcsc_pn := 7, manufacturer_pn := "P", basic := 1,
            price := PriceField.flt (pyf 1 1 one_pos), extra := none, description := "d" }]) ∧
    sort_by_basic_price 50
      [{ lcsc_pn := 7, manufacturer_pn := "P", basic := 1,
         price := PriceField.json [⟨some 10, pyf 1 1 one_pos⟩, ⟨none, pyf 4 5 (by norm_num)⟩],
         extra := none, description := "d" }] = Except.error PyError.typeError ∧
    sort_by_basic_price 1
      [{ lcsc_pn := 1, manufacturer_pn := "A", basic := 0,
         price := PriceField.json [⟨some 10, pyf 1 2 (by norm_num)⟩],
         extra := none, description := "cheap" },
       { lcsc_pn := 2, manufacturer_pn := "B", basic := 1,
         price := PriceField.json [⟨some 10, pyf 1 1 one_pos⟩],
         extra := none, description := "basic" }] =
      Except.ok
        ({ lcsc_pn := 2, manufacturer_pn := "B", basic := 1,
           price := PriceField.flt (pyf 1 1 one_pos), extra := none, description := "basic" },
         [{ lcsc_pn := 2, manufacturer_pn := "B", basic := 1,
            price := PriceField.flt (pyf 1 1 one_pos), extra := none, description := "basic" },
          { lcsc_pn := 1, manufacturer_pn := "A", basic := 0,
            price := PriceField.flt (pyf 1 2 (by norm_num)), extra := none,
            description := "cheap" }]) :=
  ⟨rfl, rfl, rfl⟩

theorem except_bind_ok {α β : Type} (a : α) (f : α → Except PyError β) :
    (Except.ok a >>= f) = f a := rfl

theorem except_bind_error {α β : Type} (e : PyError) (f : α → Except PyError β) :
    ((Except.error e : Except PyError α) >>= f) = Except.error e := rfl

theorem mem_insertRanked (a x : jlcpcb_part) (l : List jlcpcb_part)
    (h : a ∈ insertRanked x l) : a = x ∨ a ∈ l := by
  induction l with
  | nil => simpa [insertRanked] using h
  | cons y ys ih =>
    rw [insertRanked] at h
    split at h
    · rcases List.mem_cons.mp h with h1 | h2
      · subst h1; exact Or.inr (List.mem_cons_self _ _)
      · rcases ih h2 with h3 | h4
        · exact Or.inl h3
        · exact Or.inr (List.mem_cons_of_mem _ h4)
    · rcases List.mem_cons.mp h with h1 | h2
      · exact Or.inl h1
      · exact Or.inr h2

theorem mem_rankSort (a : jlcpcb_part) (l : List jlcpcb_part)
    (h : a ∈ rankSort l) : a ∈ l := by
  induction l with
  | nil => simp [rankSort] at h
  | cons x xs ih =>
    rw [rankSort] at h
    rcases mem_insertRanked a x (rankSort xs) h with h1 | h2
    · exact h1 ▸ List.mem_cons_self _ _
    · exact List.mem_cons_of_mem _ (ih h2)

theorem collect_prices_flt (q : ℤ) (l : List jlcpcb_part) (out : List jlcpcb_part)
    (h : collect_prices q l = Except.ok out) :
    ∀ x ∈ out, ∃ p, x.price = PriceField.flt p := by
  induction l generalizing out with
  | nil =>
    rw [collect_prices] at h
    simp only [Except.ok.injEq] at h
    intro x hx
    rw [← h] at hx
    simp at hx
  | cons part rest ih =>
    rw [collect_prices] at h
    cases hj : json_loads_price part.price with
    | error e => rw [hj, except_bind_error] at h; simp at h
    | ok tiers =>
      rw [hj, except_bind_ok] at h
      cases hs : select_tier q tiers with
      | error e => rw [hs, except_bind_error] at h; simp at h
      | ok sel =>
        rw [hs, except_bind_ok] at h
        cases hc : collect_prices q rest with
        | error e => rw [hc, except_bind_error] at h; simp at h
        | ok tail =>
          rw [hc, except_bind_ok] at h
          have htail := ih tail hc
          cases sel with
          | some p =>
            simp only [Except.ok.injEq] at h
            intro x hx
            rw [← h] at hx
            rcases List.mem_cons.mp hx with h1 | h2
            · exact ⟨p, by rw [h1]⟩
            · exact htail x h2
          | none =>
            simp only [Except.ok.injEq] at h
            intro x hx
            rw [← h] at hx
            exact htail x hx

/-- C9: re-running the Ranker on its own output never returns the same single
element: whatever the first successful run of `sort_by_basic_price` returned,
every surviving record's `price` field now holds the float written back by the
first run, so the second run's `json.loads` raises `TypeError`. -/
theorem c9_rerank_raises_type_error (q : ℤ) (results : List jlcpcb_part)
    (p : jlcpcb_part) (st : List jlcpcb_part)
    (h : sort_by_basic_price q results = Except.ok (p, st)) :
    sort_by_basic_price q st = Except.error PyError.typeError := by
  rw [sort_by_basic_price] at h
  cases hc : collect_prices q results with
  | error e => rw [hc, except_bind_error] at h; simp at h
  | ok collected =>
    rw [hc, except_bind_ok] at h
    cases hr : rankSort collected with
    | nil => rw [hr] at h; simp at h
    | cons p0 rest =>
      rw [hr] at h
      simp only [Except.ok.injEq, Prod.mk.injEq] at h
      obtain ⟨hp, hst⟩ := h
      have hmem : p0 ∈ collected :=
        mem_rankSort _ _ (hr ▸ List.mem_cons_self p0 rest)
      obtain ⟨pp, hpp⟩ := collect_prices_flt q results collected hc p0 hmem
      rw [← hst, sort_by_basic_price, collect_prices, hpp]
      rfl

/-- C9 witness: a concrete one-element run — the first ranking succeeds and the
general theorem yields `TypeError` on the second run over its own output. -/
theorem c9_rerank_raises_type_error_witness :
    sort_by_basic_price 1
      [{ lcsc_pn := 1, manufacturer_pn := "A", basic := 1,
         price := PriceField.flt (pyf 3 10 (by norm_num)), extra := none,
         description := "d" }] = Except.error PyError.typeError :=
  c9_rerank_raises_type_error 1
    [{ lcsc_pn := 1, manufacturer_pn := "A", basic := 1,
       price := PriceField.json [⟨some 10, pyf 3 10 (by norm_num)⟩], extra := none,
       description := "d" }]
    { lcsc_pn := 1, manufacturer_pn := "A", basic := 1,
      price := PriceField.flt (pyf 3 10 (by norm_num)), extra := none,
      description := "d" }
    [{ lcsc_pn := 1, manufacturer_pn := "A", basic := 1,
       price := PriceField.flt (pyf 3 10 (by norm_num)), extra := none,
       description := "d" }] rfl

/-- C9 counterexample: a size-1 candidate list on which the first run of the
Ranker succeeds (returning the single element with its price overwritten by
the selected float), while the second run on that output raises `TypeError`
instead of returning the same element. -/
theorem c9_not_idempotent_counterexample :
    sort_by_basic_price 1
      [{ lcsc_pn := 1, manufacturer_pn := "A", basic := 1,
         price := PriceField.json [⟨some 10, pyf 1 1 one_pos⟩], extra := none,
         description := "d" }] =
      Except.ok
        ({ lcsc_pn := 1, manufacturer_pn := "A", basic := 1,
           price := PriceField.flt (pyf 1 1 one_pos), extra := none,
           description := "d" },
         [{ lcsc_pn := 1, manufacturer_pn := "A", basic := 1,
            price := PriceField.flt (pyf 1 1 one_pos), extra := none,
            description := "d" }]) ∧
    sort_by_basic_price 1
      [{ lcsc_pn := 1, manufacturer_pn := "A", basic := 1,
         price := PriceField.flt (pyf 1 1 one_pos), extra := none,
         description := "d" }] = Except.error PyError.typeError :=
  ⟨rfl, rfl⟩

/-- C8: for every resistor spec whose tolerance constraint is not `Constant`
(`Range` or `TBD`), the predicate-building phase raises
`NotImplementedError`, and `find_resistor` propagates that same error for
every database whatsoever — i.e. the failure is decided before any catalog
access, never discovered mid-scan. -/
theorem c8_unsupported_constraint_errors_before_db (cmp : ResistorSpec)
    (db : String → List ResistorRow) (quantity moq : ℤ)
    (h : cmp.tolerance.isConstant = false) :
    build_resistor_queries cmp = Except.error PyError.notImplementedError ∧
    find_resistor cmp db quantity moq = Except.error PyError.notImplementedError := by
  obtain ⟨res, tol, cs, rp⟩ := cmp
  cases tol with
  | constant t => simp [Param.isConstant] at h
  | range lo hi => cases cs <;> cases res <;> exact ⟨rfl, rfl⟩
  | tbd => cases cs <;> cases res <;> exact ⟨rfl, rfl⟩

/-- C8 witness: a concrete spec with a `Range` (Bounded) tolerance — both the
builder phase and the full search fail with `NotImplementedError` on an
arbitrary (here: empty-answering) database. -/
theorem c8_unsupported_constraint_witness :
    build_resistor_queries
      { resistance := Param.constant (pyf 1000 1 one_pos),
        tolerance := Param.range (pyf 1 1 one_pos) (pyf 5 1 one_pos),
        case_size := Param.constant 3,
        rated_power := Param.tbd } = Except.error PyError.notImplementedError ∧
    find_resistor
      { resistance := Param.constant (pyf 1000 1 one_pos),
        tolerance := Param.range (pyf 1 1 one_pos) (pyf 5 1 one_pos),
        case_size := Param.constant 3,
        rated_power := Param.tbd } (fun _ => []) 1 50 =
      Except.error PyError.notImplementedError :=
  c8_unsupported_constraint_errors_before_db
    { resistance := Param.constant (pyf 1000 1 one_pos),
      tolerance := Param.range (pyf 1 1 one_pos) (pyf 5 1 one_pos),
      case_size := Param.constant 3,
      rated_power := Param.tbd } (fun _ => []) 1 50 rfl

/-- C10: for a numeric part number, `get_part` returns a record exactly when
one catalog record matches the stripped number — in that case it returns the
unique match — and raises `LookupError` whenever zero or several records
match. -/
theorem c10_get_part_unique_match (db : List jlcpcb_part) (lcsc_pn : String) (n : ℕ)
    (hp : parseDigits (stripAll ['C'] lcsc_pn.data) = some n) :
    ((db.filter (fun r => decide (r.lcsc_pn = (n : ℤ)))).length = 1 →
      ∃ r, get_part db lcsc_pn = Except.ok r ∧
        db.filter (fun r => decide (r.lcsc_pn = (n : ℤ))) = [r]) ∧
    ((db.filter (fun r => decide (r.lcsc_pn = (n : ℤ)))).length ≠ 1 →
      get_part db lcsc_pn = Except.error PyError.lookupError) := by
  have hkey : get_part db lcsc_pn =
      match db.filter (fun r => decide (r.lcsc_pn = (n : ℤ))) with
      | [r] => Except.ok r
      | _ => Except.error PyError.lookupError := by
    rw [get_part, hp]
  cases hm : db.filter (fun r => decide (r.lcsc_pn = (n : ℤ))) with
  | nil =>
    rw [hm] at hkey
    refine ⟨fun h1 => ?_, fun _ => hkey⟩
    simp at h1
  | cons a tail =>
    cases tail with
    | nil =>
      rw [hm] at hkey
      exact ⟨fun _ => ⟨a, hkey, rfl⟩, fun h2 => absurd rfl h2⟩
    | cons b t2 =>
      rw [hm] at hkey
      refine ⟨fun h1 => ?_, fun _ => hkey⟩
      simp at h1

/-- C10 witness: a one-record catalog in which `"C7"` matches exactly the
record with `lcsc = 7`, so `get_part` returns it. -/
theorem c10_get_part_unique_match_witness :
    ∃ r, get_part
        [{ lcsc_pn := 7, manufacturer_pn := "M", basic := 1,
           price := PriceField.json [], extra := none, description := "d" }] "C7" =
        Except.ok r ∧
      List.filter (fun r => decide (r.lcsc_pn = ((7 : ℕ) : ℤ)))
        [{ lcsc_pn := 7, manufacturer_pn := "M", basic := 1,
           price := PriceField.json [], extra := none, description := "d" }] = [r] :=
  (c10_get_part_unique_match
    [{ lcsc_pn := 7, manufacturer_pn := "M", basic := 1,
       price := PriceField.json [], extra := none, description := "d" }] "C7" 7 rfl).1 rfl

/-- C5 counterexample: a candidate whose parsed `"Rated Current"` value is
exactly the Bounded lower endpoint (`1`, inside the claimed inclusive interval
`[1, 3]`) is removed by the attribute filter, and an inductor row whose rated
current exactly equals the `Constant` requirement is removed by the
rated-current stage — both tests are strict, contradicting the claimed
inclusive interval and `>=` direction. -/
theorem c5_inclusive_endpoint_counterexample :
    filter_results_by_extra_json_attributes "Rated Current"
      (Param.range (pyf 1 1 one_pos) (pyf 3 1 one_pos)) (fun x => x)
      [{ lcsc_pn := 1, manufacturer_pn := "A", basic := 1,
         price := PriceField.json [], extra := some [("Rated Current", "1A")],
         description := "d" }] = [] ∧
    si_to_float "1A" = some (PyF.ofNat 1) ∧
    (pyf 1 1 one_pos ≤ PyF.ofNat 1 ∧ PyF.ofNat 1 ≤ pyf 3 1 one_pos) ∧
    inductor_rated_current_filter (Param.constant (pyf 1 1 one_pos))
      [{ lcsc := 1, basic := 1, priceJson := "", extra := some [("Rated Current", "1A")],
         description := "d" }] = Except.ok [] :=
  ⟨rfl, rfl, ⟨by decide, by decide⟩, rfl⟩

/-- C5 (amended): the attribute filter's Bounded test is the strict open
interval `min < x < max`, and the rated-current direction is strict: for every
part whose attribute parses to `x`, membership in the filtered list is
equivalent to `part ∈ results ∧ lo < x ∧ x < hi`; and for every inductor row
whose rated current parses to `y` (and is not the `"-"` marker), the
`Constant` rated-current stage keeps it iff `rc < y`. -/
theorem c5_strict_open_interval_filter :
    (∀ (key : String) (fn : String → String) (lo hi : PyF)
       (results : List jlcpcb_part) (part : jlcpcb_part) (x : PyF),
       parse_attr fn key part = some x →
       (part ∈ filter_results_by_extra_json_attributes key (Param.range lo hi) fn results ↔
         part ∈ results ∧ lo < x ∧ x < hi)) ∧
    (∀ (rc : PyF) (rows res : List InductorRow) (row : InductorRow) (s : String) (y : PyF),
       inductor_rated_current_filter (Param.constant rc) rows = Except.ok res →
       row_attr "Rated Current" row.extra = some s → s ≠ "-" → si_to_float s = some y →
       (row ∈ res ↔ row ∈ rows ∧ rc < y)) := by
  constructor
  · intro key fn lo hi results part x hx
    have hrw : filter_results_by_extra_json_attributes key (Param.range lo hi) fn results
        = results.filter (fun part' =>
            match parse_attr fn key part' with
            | some x' => decide (lo < x') && decide (x' < hi)
            | none => false) := rfl
    rw [hrw, List.mem_filter]
    constructor
    · rintro ⟨hm, hp⟩
      simp only [hx, Bool.and_eq_true, decide_eq_true_eq] at hp
      exact ⟨hm, hp.1, hp.2⟩
    · rintro ⟨hm, h1, h2⟩
      refine ⟨hm, ?_⟩
      simp only [hx, Bool.and_eq_true, decide_eq_true_eq]
      exact ⟨h1, h2⟩
  · intro rc rows res row s y hres hattr hs hy
    have hrw : inductor_rated_current_filter (Param.constant rc) rows
        = Except.ok (rows.filter (fun r =>
            match row_attr "Rated Current" r.extra with
            | none => false
            | some val =>
              if val = "-" then false
              else
                match si_to_float val with
                | none => false
                | some x => decide (rc < x))) := rfl
    rw [hrw] at hres
    simp only [Except.ok.injEq] at hres
    subst hres
    rw [List.mem_filter]
    constructor
    · rintro ⟨hm, hp⟩
      simp only [hattr, if_neg hs, hy, decide_eq_true_eq] at hp
      exact ⟨hm, hp⟩
    · rintro ⟨hm, hlt⟩
      refine ⟨hm, ?_⟩
      simp only [hattr, if_neg hs, hy, decide_eq_true_eq]
      exact hlt

/-- C5 witness: a candidate parsing to `2` strictly inside `Range(1, 3)` is
kept by the attribute filter, and an inductor row with rated current `2`
strictly above a `Constant(1)` requirement is kept by the rated-current
stage. -/
theorem c5_strict_open_interval_witness :
    (({ lcsc_pn := 1, manufacturer_pn := "A", basic := 1,
        price := PriceField.json [], extra := some [("Rated Current", "2A")],
        description := "d" } : jlcpcb_part) ∈
        filter_results_by_extra_json_attributes "Rated Current"
          (Param.range (pyf 1 1 one_pos) (pyf 3 1 one_pos)) (fun x => x)
          [{ lcsc_pn := 1, manufacturer_pn := "A", basic := 1,
             price := PriceField.json [], extra := some [("Rated Current", "2A")],
             description := "d" }] ↔
      ({ lcsc_pn := 1, manufacturer_pn := "A", basic := 1,
         price := PriceField.json [], extra := some [("Rated Current", "2A")],
         description := "d" } : jlcpcb_part) ∈
        [{ lcsc_pn := 1, manufacturer_pn := "A", basic := 1,
           price := PriceField.json [], extra := some [("Rated Current", "2A")],
           description := "d" }] ∧
      pyf 1 1 one_pos < PyF.ofNat 2 ∧ PyF.ofNat 2 < pyf 3 1 one_pos) ∧
    (({ lcsc := 1, basic := 1, priceJson := "", extra := some [("Rated Current", "2A")],
        description := "d" } : InductorRow) ∈
        [({ lcsc := 1, basic := 1, priceJson := "", extra := some [("Rated Current", "2A")],
            description := "d" } : InductorRow)] ↔
      ({ lcsc := 1, basic := 1, priceJson := "", extra := some [("Rated Current", "2A")],
         description := "d" } : InductorRow) ∈
        [({ lcsc := 1, basic := 1, priceJson := "", extra := some [("Rated Current", "2A")],
            description := "d" } : InductorRow)] ∧
      pyf 1 1 one_pos < PyF.ofNat 2) :=
  ⟨c5_strict_open_interval_filter.1 "Rated Current" (fun x => x)
    (pyf 1 1 one_pos) (pyf 3 1 one_pos) _ _ (PyF.ofNat 2) rfl,
   c5_strict_open_interval_filter.2 (pyf 1 1 one_pos) _ _ _ "2A" (PyF.ofNat 2)
    rfl rfl (by decide) rfl⟩

theorem joinOr_cons (s : String) (rest : List String) (h : rest ≠ []) :
    joinOr (s :: rest) = s ++ " OR " ++ joinOr rest := by
  cases rest with
  | nil => exact absurd rfl h
  | cons b bs => rfl

theorem joinOr_data_split (l1 : List String) (x : String) (l2 : List String) :
    ∃ pre post, (joinOr (l1 ++ x :: l2)).data = pre ++ x.data ++ post := by
  induction l1 with
  | nil =>
    cases l2 with
    | nil => exact ⟨[], [], by simp [joinOr]⟩
    | cons b bs =>
      refine ⟨[], (" OR " ++ joinOr (b :: bs)).data, ?_⟩
      rw [List.nil_append, joinOr_cons x (b :: bs) (by simp)]
      simp [String.data_append, List.append_assoc]
  | cons a as ih =>
    obtain ⟨pre, post, hpp⟩ := ih
    refine ⟨(a ++ " OR ").data ++ pre, post, ?_⟩
    rw [List.cons_append, joinOr_cons a (as ++ x :: l2) (by simp)]
    simp [String.data_append, hpp, List.append_assoc]

theorem pct_quote_split :
    ("%' OR description LIKE '" : String).data =
      ("%'" : String).data ++ (" OR description LIKE '" : String).data := rfl

theorem like_pair_head_decomp (s : String) :
    (like_pair s).data =
      ("description LIKE '% " ++ s ++ "%'").data ++
        (" OR description LIKE '" ++ s ++ "%'").data := by
  simp [like_pair, String.data_append, pct_quote_split, List.append_assoc]

theorem cap_fragment_first_spelling (v : PyF)
    (hd : dual_band (float_to_si v ++ "F") = true) :
    (cap_value_fragment v).data =
      ("description LIKE '% " ++ (float_to_si v ++ "F") ++ "%'").data ++
        ((" OR description LIKE '" ++ (float_to_si v ++ "F") ++ "%'").data ++
          (" OR " ++ like_pair (uf_spelling (float_to_si v ++ "F"))).data) := by
  have hfrag : cap_value_fragment v =
      like_pair (float_to_si v ++ "F") ++
        (if dual_band (float_to_si v ++ "F") then
          " OR " ++ like_pair (uf_spelling (float_to_si v ++ "F")) else "") := rfl
  rw [hfrag, if_pos hd]
  simp [String.data_append, like_pair_head_decomp, List.append_assoc]

theorem cap_fragment_second_spelling (v : PyF)
    (hd : dual_band (float_to_si v ++ "F") = true) :
    (cap_value_fragment v).data =
      (like_pair (float_to_si v ++ "F") ++ " OR ").data ++
        ("description LIKE '% " ++ uf_spelling (float_to_si v ++ "F") ++ "%'").data ++
          (" OR description LIKE '" ++ uf_spelling (float_to_si v ++ "F") ++ "%'").data := by
  have hfrag : cap_value_fragment v =
      like_pair (float_to_si v ++ "F") ++
        (if dual_band (float_to_si v ++ "F") then
          " OR " ++ like_pair (uf_spelling (float_to_si v ++ "F")) else "") := rfl
  rw [hfrag, if_pos hd]
  simp [String.data_append, like_pair_head_decomp, List.append_assoc]

theorem int_ten_pow_pos (n : ℕ) : (0 : ℤ) < 10 ^ n := pow_pos (by norm_num) n

set_option maxRecDepth 8192 in
/-- C7: the dual-spelling generation is broken at the source.  CPython formats
a string left-aligned with `'0'` fill, so `f"0.{'10':03}"` is `"0.100"` and the
respelling of `10nF` is `0.1uF` — the wrong magnitude — and of `47nF` is
`0.47uF` (never the catalog spellings `0.01uF`/`0.047uF`); the spec scenario
`Bounded(8e-9, 12e-9)` therefore yields a query containing the token `0.1uF`
and nowhere the required `0.01u`, and the `Exact(1e-8)` branch emits no second
spelling at all. -/
theorem c7_uf_respelling_wrong_magnitude :
    uf_spelling "10nF" = "0.1uF" ∧
    uf_spelling "47nF" = "0.47uF" ∧
    (∃ q : String,
      build_capacitor_value_query
          (Param.range (pyf 8 (10 ^ 9) (int_ten_pow_pos 9))
            (pyf 12 (10 ^ 9) (int_ten_pow_pos 9))) = Except.ok q ∧
      containsSub q.data "0.01u".data = false ∧
      containsSub q.data "0.1uF".data = true) ∧
    build_capacitor_value_query (Param.constant (pyf 1 (10 ^ 8) (int_ten_pow_pos 8))) =
      Except.ok "(description LIKE '% 10nF%' OR description LIKE '10nF%')" :=
  ⟨rfl, rfl, ⟨_, rfl, rfl, rfl⟩, rfl⟩
